import Mathlib

/-!
# Grant-module generator (`scripts/snowflake_generate_grant_all/main.go`)

A shallow embedding of `reverseType`, `generateModule`, `moduleName`,
`writeModule` and `exec`, and the properties of the specification that concern
them.

Modelling conventions

* A Go `string` is a Lean `String`.  `sort.Strings` compares bytewise; on valid
  UTF-8 this is the order of the code points, which is the order of
  `String.toList`.
* A Go `map[string]V` that the program only *writes and reads by key* is a
  function `String → Option V` (`GoMap`).  A map that the program *ranges over*
  (`Resource.Schema`) is the list of its entries in the order the `range`
  visits them; its keys are pairwise distinct, which the theorems that need it
  take as the hypothesis `Nodup`.
* A Go call ends in one of three ways: it returns a value, it returns a
  non-nil `error`, or it panics (a failed type assertion).  `Outcome` has one
  constructor for each.
* Pointers to `schema.Schema` stored in a schema map are non-nil.
* `generateModule` is embedded up to the `ModuleTemplate` it hands to
  `json.MarshalIndent`.  Both of its `range` loops are given the schema in the
  same order; the second loop is shown not to depend on the order.
* What `exec` and `writeModule` call outside the sources at hand
  (`generateTest`, `ensureCI`, the operating system, the grant registry) is a
  parameter of the embedding.
-/

namespace GrantAll

/-! ## Data model -/

/-- The kinds of `schema.ValueType` (terraform-plugin-sdk, `helper/schema`), in
declaration order. -/
inductive ValueType
  | TypeInvalid | TypeBool | TypeInt | TypeFloat | TypeString
  | TypeList | TypeMap | TypeSet | typeObject
  deriving DecidableEq, Repr

/-- The `String()` method of `schema.ValueType` (generated by `stringer`): the
name of the constant. -/
def ValueType.String : ValueType → String
  | .TypeInvalid => "TypeInvalid"
  | .TypeBool => "TypeBool"
  | .TypeInt => "TypeInt"
  | .TypeFloat => "TypeFloat"
  | .TypeString => "TypeString"
  | .TypeList => "TypeList"
  | .TypeMap => "TypeMap"
  | .TypeSet => "TypeSet"
  | .typeObject => "typeObject"

/-- The dynamic value held by the field `Elem interface{}` of a `schema.Schema`:
`nil`, a `*schema.Schema`, a `*schema.Resource` (of which only the `Schema` map
matters, given as its entries in visiting order), or a value of any other
dynamic type. -/
inductive Elem (σ : Type)
  | none
  | schema (s : σ)
  | resource (fields : List (String × σ))
  | other
  deriving Repr

/-- The fields of `schema.Schema` that the generator reads: `Type`, `Elem` and
`Description`. -/
inductive Schema : Type
  | mk (type : ValueType) (elem : Elem Schema) (description : String)

/-- Field `Type` of a `schema.Schema`. -/
def Schema.type : Schema → ValueType
  | .mk t _ _ => t

/-- Field `Elem` of a `schema.Schema`. -/
def Schema.elem : Schema → Elem Schema
  | .mk _ e _ => e

/-- Field `Description` of a `schema.Schema`. -/
def Schema.description : Schema → String
  | .mk _ _ d => d

/-- The three ways a Go call can end: a returned value, a returned `error`
(with its message), or a panic. -/
inductive Outcome (α : Type)
  | ok (v : α)
  | error (msg : String)
  | panic
  deriving DecidableEq, Repr

/-- Whether the call returned with a nil error. -/
def Outcome.isOk {α : Type} : Outcome α → Bool
  | .ok _ => true
  | _ => false

/-- Whether the call returned a non-nil error. -/
def Outcome.isError {α : Type} : Outcome α → Bool
  | .error _ => true
  | _ => false

/-- The string a `(string, error)` call hands back: the value on success and
the empty string next to a non-nil error. -/
def Outcome.str : Outcome String → String
  | .ok v => v
  | _ => ""

/-- A Go map used only through indexing and assignment. -/
abbrev GoMap (V : Type) : Type := String → Option V

/-- The empty map literal `map[string]V{}`. -/
def mapEmpty {V : Type} : GoMap V := fun _ => Option.none

/-- The assignment `m[k] = v`. -/
def mapSet {V : Type} (m : GoMap V) (k : String) (v : V) : GoMap V :=
  fun k' => if k' = k then some v else m k'

/-- The comma-ok lookup `_, ok := schema[k]` on a ranged-over map. -/
def hasKey (schema : List (String × Schema)) (k : String) : Bool :=
  (schema.lookup k).isSome

/-! ## Sorting -/

/-- The order `sort.Strings` sorts by. -/
def strLE (a b : String) : Prop := a.toList ≤ b.toList

instance strLE.decidable : DecidableRel strLE :=
  fun a b => inferInstanceAs (Decidable (a.toList ≤ b.toList))

/-- The effect of `sort.Strings` on a slice: the same strings in increasing
order. -/
def sortStrings (l : List String) : List String :=
  l.insertionSort strLE

/-! ## `reverseType` -/

mutual
/-- The function `reverseType` (main.go, lines 205-233). -/
def reverseType : Schema → Outcome String
  | .mk .TypeBool _ _ => .ok "bool"
  | .mk .TypeString _ _ => .ok "string"
  | .mk .TypeSet (.schema e) _ =>
    match reverseType e with
    | .ok inner => .ok ("set(" ++ inner ++ ")")
    | .error err => .error err
    | .panic => .panic
  | .mk .TypeSet _ _ => .panic
  | .mk .TypeList (.resource fields) _ =>
    match reverseTypeLoop fields [] with
    | .ok innerElements =>
      .ok ("list(object(\x7b " ++ ", ".intercalate innerElements ++ " \x7d))")
    | .error err => .error err
    | .panic => .panic
  | .mk .TypeList _ _ => .panic
  | .mk t _ _ => .error ("Unrecognized type " ++ t.String)
/-- The `for name, s := range resource.Schema` loop of `reverseType` (lines
221-228), from the entries still to visit and the current `innerElements`. -/
def reverseTypeLoop : List (String × Schema) → List String → Outcome (List String)
  | [], innerElements => .ok innerElements
  | (name, s) :: rest, innerElements =>
    match reverseType s with
    | .ok inner =>
      reverseTypeLoop rest (sortStrings (innerElements ++ [name ++ " = " ++ inner]))
    | .error err => .error err
    | .panic => .panic
end

/-! ## `generateModule` -/

/-- Constant `topLvlComment`. -/
def topLvlComment : String :=
  "NOTE: Generated by scripts/snowflake_generate_grant_all.\n\tChanges made directly to this file will be overwritten.\n\tMake improvements there so everyone can benefit.\n  The reason this module exists is that the provider only supports one grant resource per (database_name, schema_name, table_name, on_future, with_grant_option) tuple.\n\tFor example, if you used this module to grant an ALL privilege to a role you couldn\x27t grant a subset of the ALL privs to another role."

/-- Constant `perPrivTypeVarName`. -/
def perPrivTypeVarName : String := "per_privilege_grants"

/-- Constant `snowflakeProviderVersion`. -/
def snowflakeProviderVersion : String := ">= 0.20.0"

/-- The values stored in `Variable.Default` (an `interface{}`): `nil` or the
empty map `map[string]interface{}{}`. -/
inductive DefaultValue
  | null
  | emptyMap
  deriving DecidableEq, Repr

/-- The struct `Variable`. -/
structure Variable where
  TType : String
  Description : String
  Default : DefaultValue
  deriving DecidableEq, Repr

/-- The struct `ModuleTemplate`.  `Locals` only ever holds string slices and
the innermost maps of `Resources` only ever hold strings. -/
structure ModuleTemplate where
  Comment : String
  Variables : GoMap Variable
  Locals : GoMap (List String)
  Resources : GoMap (GoMap (GoMap String))
  Terraform : GoMap (GoMap (GoMap String))

/-- What `generateModule` reads of a `resources.TerraformGrantResource`:
`Resource.Schema` (entries in visiting order) and `ValidPrivs.ToList()`. -/
structure TerraformGrantResource where
  schema : List (String × Schema)
  validPrivs : List String

/-- The first `range grant.Resource.Schema` loop of `generateModule` (lines
130-146), from the entries still to visit and the current `m.Variables`. -/
def collectVariables : List (String × Schema) → GoMap Variable → Outcome (GoMap Variable)
  | [], vars => .ok vars
  | (elementName, config) :: rest, vars =>
    if elementName = "privilege" then collectVariables rest vars
    else
      match reverseType config with
      | .ok ttype =>
        collectVariables rest
          (mapSet vars elementName
            { TType := ttype, Description := config.description, Default := .null })
      | .error err => .error err
      | .panic => .panic

/-- The slice `perPrivTypeInner` after lines 149-158. -/
def perPrivTypeInner (schema : List (String × Schema)) : List String :=
  (if hasKey schema "shares" then ["shares = list(string)"] else []) ++
  (if hasKey schema "roles" then ["roles = list(string)"] else [])

/-- The slice `defaultPrivTypes` after lines 150-158. -/
def defaultPrivTypes (schema : List (String × Schema)) : List String :=
  (if hasKey schema "shares" then ["shares = []"] else []) ++
  (if hasKey schema "roles" then ["roles = []"] else [])

/-- The string `defaultPrivType` (lines 160-163). -/
def defaultPrivType (schema : List (String × Schema)) : String :=
  "\x7b " ++ ", ".intercalate (defaultPrivTypes schema) ++ " \x7d"

/-- The type given to the variable `per_privilege_grants` (line 166). -/
def perPrivType (schema : List (String × Schema)) : String :=
  "map(object(\x7b" ++ ",".intercalate (perPrivTypeInner schema) ++ "\x7d))"

/-- The description given to the variable `per_privilege_grants` (lines 167-168). -/
def perPrivDescription : String :=
  "A map of privileges to authorized roles and shares. Privileges must be UPPER case.\n  This allows you to authorize extra roles/shares for specific privileges."

/-- The union expression of lines 181-184 and 186-189, for the element `elt`
(`roles` or `shares`). -/
def unionExpression (elt defaultExpr : String) : String :=
  "$\x7bsetunion(\n\t\t\t\tvar." ++ elt ++
    ",\n\t\t\t\tlookup(var.per_privilege_grants, each.value, " ++ defaultExpr ++ ")." ++ elt ++
    ",\n\t\t\t\t)\x7d"

/-- The second `range grant.Resource.Schema` loop of `generateModule` (lines
177-194), from the entries still to visit and the current `resourceAll`. -/
def fillResourceAll (defaultExpr : String) :
    List (String × Schema) → GoMap String → GoMap String
  | [], resourceAll => resourceAll
  | (elementName, _) :: rest, resourceAll =>
    if elementName = "privilege" then fillResourceAll defaultExpr rest resourceAll
    else if elementName = "roles" then
      fillResourceAll defaultExpr rest
        (mapSet resourceAll "roles" (unionExpression "roles" defaultExpr))
    else if elementName = "shares" then
      fillResourceAll defaultExpr rest
        (mapSet resourceAll "shares" (unionExpression "shares" defaultExpr))
    else
      fillResourceAll defaultExpr rest
        (mapSet resourceAll elementName ("$\x7bvar." ++ elementName ++ "\x7d"))

/-- The function `generateModule` (lines 108-203) up to its last statement: the
result is the `ModuleTemplate` that `json.MarshalIndent` is then given.  Both
`range` loops visit `grant.schema` in the order of the list. -/
def generateModule (name : String) (grant : TerraformGrantResource) : Outcome ModuleTemplate :=
  let privileges := sortStrings grant.validPrivs
  match collectVariables grant.schema mapEmpty with
  | .error err => .error err
  | .panic => .panic
  | .ok vars =>
    let resourceAll :=
      fillResourceAll (defaultPrivType grant.schema) grant.schema
        (mapSet (mapSet mapEmpty "for_each" "$\x7btoset(local.privileges)\x7d")
          "privilege" "$\x7beach.value\x7d")
    .ok
      { Comment := topLvlComment
        Variables :=
          mapSet vars perPrivTypeVarName
            { TType := perPrivType grant.schema
              Description := perPrivDescription
              Default := .emptyMap }
        Locals := mapSet mapEmpty "privileges" privileges
        Resources := mapSet mapEmpty name (mapSet mapEmpty "all" resourceAll)
        Terraform :=
          mapSet mapEmpty "required_providers"
            (mapSet mapEmpty "snowflake"
              (mapSet (mapSet mapEmpty "source" "chanzuckerberg/snowflake")
                "version" snowflakeProviderVersion)) }

/-! ## `moduleName`, `writeModule` and `exec` -/

/-- The call `strings.ReplaceAll(s, old, new)` when `old` and `new` are one
ASCII character each: every occurrence of `old` becomes `new`. -/
def replaceAll (s : String) (old new : Char) : String :=
  String.mk (s.toList.map (fun c => if c = old then new else c))

/-- The function `moduleName` (lines 81-83). -/
def moduleName (name : String) : String :=
  replaceAll (name ++ "-all") '_' '-'

/-- What `writeModule` asks of the operating system and of package `path`:
`os.Getwd`, `path.Join`, and the errors (if any) of `os.MkdirAll` and
`ioutil.WriteFile` on a path. -/
structure Os where
  getwd : Outcome String
  join : List String → String
  mkdirAll : String → Option String
  writeFile : String → Option String

/-- What is written to a file: the module document (serialized by
`json.MarshalIndent`) or the test code. -/
inductive FileContent
  | module (tf : ModuleTemplate)
  | test (testCode : String)

/-- An effect of `writeModule` on the disk. -/
inductive DiskOp
  | mkdirAll (dir : String)
  | writeFile (file : String) (content : FileContent)

/-- The function `writeModule` (lines 86-106): the error it returns and the
effects it has had on the disk, in order. -/
def writeModule (os : Os) (name : String) (tf : ModuleTemplate) (testCode : String) :
    Outcome Unit × List DiskOp :=
  match os.getwd with
  | .error err => (.error err, [])
  | .panic => (.panic, [])
  | .ok cwd =>
    let moduleDir := os.join [cwd, "..", "..", name]
    match os.mkdirAll moduleDir with
    | some err => (.error err, [])
    | none =>
      match os.writeFile (os.join [moduleDir, "main.tf.json"]) with
      | some err => (.error err, [.mkdirAll moduleDir])
      | none =>
        match os.writeFile (os.join [moduleDir, "module_test.go"]) with
        | some err =>
          (.error err,
            [.mkdirAll moduleDir, .writeFile (os.join [moduleDir, "main.tf.json"]) (.module tf)])
        | none =>
          (.ok (),
            [.mkdirAll moduleDir, .writeFile (os.join [moduleDir, "main.tf.json"]) (.module tf),
              .writeFile (os.join [moduleDir, "module_test.go"]) (.test testCode)])

/-- The functions `exec` calls whose code is not among the sources at hand:
`generateTest` and `ensureCI`. -/
structure Collaborators where
  generateTest : TerraformGrantResource → Outcome String
  ensureCI : List String → Outcome Unit

/-- One invocation of `writeModule` by `exec`: the resource whose iteration made
it, the module name passed, and the effects it had. -/
structure WriteCall where
  resource : String
  name : String
  ops : List DiskOp

/-- The `range grants` loop of `exec` (lines 61-77), from the entries still to
visit, the current `ciTests` and the invocations of `writeModule` so far. -/
def execLoop (os : Os) (c : Collaborators) :
    List (String × TerraformGrantResource) → List String → List WriteCall →
      Outcome (List String) × List WriteCall
  | [], ciTests, calls => (.ok ciTests, calls)
  | (resourceName, grant) :: rest, ciTests, calls =>
    let ciTests' := ciTests ++ [moduleName resourceName]
    match generateModule resourceName grant with
    | .error err => (.error err, calls)
    | .panic => (.panic, calls)
    | .ok tf =>
      match c.generateTest grant with
      | .error err => (.error err, calls)
      | .panic => (.panic, calls)
      | .ok testCode =>
        match writeModule os (moduleName resourceName) tf testCode with
        | (.ok _, ops) =>
          execLoop os c rest ciTests'
            (calls ++ [{ resource := resourceName, name := moduleName resourceName, ops := ops }])
        | (.error err, ops) =>
          (.error err,
            calls ++ [{ resource := resourceName, name := moduleName resourceName, ops := ops }])
        | (.panic, ops) =>
          (.panic,
            calls ++ [{ resource := resourceName, name := moduleName resourceName, ops := ops }])

/-- The function `exec` (lines 57-79) on the grants `provider.GetGrantResources()`
returns, given as entries in visiting order: what it returns and the
invocations of `writeModule` it has made. -/
def exec (os : Os) (c : Collaborators) (grants : List (String × TerraformGrantResource)) :
    Outcome Unit × List WriteCall :=
  match execLoop os c grants [] [] with
  | (.ok ciTests, calls) => (c.ensureCI ciTests, calls)
  | (.error err, calls) => (.error err, calls)
  | (.panic, calls) => (.panic, calls)

/-! ## Notions the specification uses -/

/-- The entry `reverseType` appends for a nested field,
`fmt.Sprintf("%s = %s", name, inner)`, with `inner` the string that
`reverseType` hands back for the field. -/
def innerElement (f : String × Schema) : String :=
  f.1 ++ " = " ++ (reverseType f.2).str

/-- Nested fields listed in lexicographic order of the field name. -/
def sortByName (fields : List (String × Schema)) : List (String × Schema) :=
  fields.insertionSort (fun f g => strLE f.1 g.1)

/-- The text of a `ListOfObject` type expression around its entries. -/
def listOfObject (entries : List String) : String :=
  "list(object(\x7b " ++ ", ".intercalate entries ++ " \x7d))"

/-- The kinds `reverseType` has no case for: every kind other than Boolean,
String, Set and List. -/
def ValueType.unsupported : ValueType → Bool
  | .TypeBool => false
  | .TypeString => false
  | .TypeSet => false
  | .TypeList => false
  | _ => true

/-- The fields reachable from a field: the field itself, what is reachable
from the element of a Set field, and what is reachable from a nested field of a
List field. -/
inductive Reaches : Schema → Schema → Prop
  | self (s : Schema) : Reaches s s
  | setElem (e : Schema) (d : String) (s' : Schema) :
      Reaches e s' → Reaches (.mk .TypeSet (.schema e) d) s'
  | nested (fields : List (String × Schema)) (d : String) (f : String × Schema) (s' : Schema) :
      f ∈ fields → Reaches f.2 s' → Reaches (.mk .TypeList (.resource fields) d) s'

/-- The element of a Set field is a schema and the element of a List field is
a resource. -/
def ShapeOk (s : Schema) : Prop :=
  (s.type = .TypeSet → ∃ e, s.elem = .schema e) ∧
    (s.type = .TypeList → ∃ fields, s.elem = .resource fields)

/-- A field is well shaped when every field reachable from it has the element
its kind asks for. -/
def WellShaped (s : Schema) : Prop :=
  ∀ s', Reaches s s' → ShapeOk s'

/-- A List field whose nested fields are `tags`, a Set of String, and `size`, of
kind `TypeInt`. -/
def listWithIntField : Schema :=
  .mk .TypeList
    (.resource [("tags", .mk .TypeSet (.schema (.mk .TypeString .none "")) ""),
      ("size", .mk .TypeInt .none "")]) ""

/-- The text of `s` before its first `=` (`s.split("=")[0]`). -/
def beforeEquals (s : String) : String :=
  String.mk (s.toList.takeWhile (fun c => c != '='))

/-- The string `s` without its leading and trailing white space. -/
def trimSpace (s : String) : String :=
  String.mk ((s.toList.dropWhile Char.isWhitespace).reverse.dropWhile Char.isWhitespace).reverse

/-- The default expression in the words of the specification: for each inner
type field, the text before its `=`, trimmed, followed by ` = []`; the results
joined by `, ` between `{ ` and ` }`. -/
def specDefaultExpression (innerFields : List String) : String :=
  "\x7b " ++ ", ".intercalate (innerFields.map (fun f => trimSpace (beforeEquals f) ++ " = []")) ++
    " \x7d"

/-- A grant on a database: the fields `privilege`, `roles`, `shares`,
`database_name` and `with_grant_option`, and three valid privileges. -/
def databaseGrant : TerraformGrantResource :=
  { schema :=
      [("privilege", .mk .TypeString .none "The privilege to grant."),
        ("roles", .mk .TypeSet (.schema (.mk .TypeString .none "")) "Grants privilege to these roles."),
        ("shares", .mk .TypeSet (.schema (.mk .TypeString .none "")) "Grants privilege to these shares."),
        ("database_name", .mk .TypeString .none "The name of the database."),
        ("with_grant_option", .mk .TypeBool .none "Allows the recipient to grant the privilege.")]
    validPrivs := ["SELECT", "INSERT", "ALL"] }

/-- A grant with the fields `privilege`, `roles` and `on_future`, without
`shares`. -/
def rolesOnlyGrant : TerraformGrantResource :=
  { schema :=
      [("on_future", .mk .TypeBool .none "Applies to future objects."),
        ("roles", .mk .TypeSet (.schema (.mk .TypeString .none "")) "Grants privilege to these roles."),
        ("privilege", .mk .TypeString .none "The privilege to grant.")]
    validPrivs := ["USAGE", "OWNERSHIP"] }

/-- A grant whose set of valid privileges is empty. -/
def noPrivilegeGrant : TerraformGrantResource :=
  { schema := [("database_name", .mk .TypeString .none "The name of the database.")]
    validPrivs := [] }

/-- The body of the resource block labelled `all` of the resource `name`:
`m.Resources[name]["all"]`. -/
def resourceBody (m : ModuleTemplate) (name : String) : Option (GoMap String) :=
  (m.Resources name).bind (fun blocks => blocks "all")

/-- The attribute the second loop of `generateModule` stores for an element
name other than `privilege` (lines 180-191). -/
def attributeFor (defaultExpr elementName : String) : String :=
  if elementName = "roles" then unionExpression "roles" defaultExpr
  else if elementName = "shares" then unionExpression "shares" defaultExpr
  else "$\x7bvar." ++ elementName ++ "\x7d"

/-- The attribute `k` of the resource block `all` of the resource `name` in
what `generateModule` returned, if it returned a document that has one. -/
def resourceAttribute (o : Outcome ModuleTemplate) (name k : String) : Option String :=
  match o with
  | .ok m => (resourceBody m name).bind (fun body => body k)
  | _ => none

/-- The characters of an identifier of the target configuration language:
letters, digits, `_` and `-`. -/
def isIdentChar (c : Char) : Bool :=
  c.isAlphanum || c == '_' || c == '-'

/-- The text after `var.` when the text starts with `var.`. -/
def afterVar : List Char → Option (List Char)
  | c₁ :: c₂ :: c₃ :: c₄ :: rest =>
    if c₁ = 'v' ∧ c₂ = 'a' ∧ c₃ = 'r' ∧ c₄ = '.' then some rest else Option.none
  | _ => Option.none

/-- The names `x` of the references `var.x` in a text, read left to right:
`var.` counts where it does not continue an identifier or an attribute path
(`blocked` says that the character before is an identifier character or a
dot), and `x` is the longest run of identifier characters after it. -/
def scanRefs : Bool → List Char → List String
  | _, [] => []
  | blocked, c :: cs =>
    (if blocked then []
      else
        match afterVar (c :: cs) with
        | some rest => [String.mk (rest.takeWhile isIdentChar)]
        | Option.none => []) ++
      scanRefs (isIdentChar c || c == '.') cs

/-- The variables a generated text refers to: the names `x` of the references
`var.x` that occur in it. -/
def varRefs (text : String) : List String :=
  scanRefs false text.toList

/-- The variable `k` declared by what `generateModule` returned, if it returned
a document that declares it. -/
def variableOf (o : Outcome ModuleTemplate) (k : String) : Option Variable :=
  match o with
  | .ok m => m.Variables k
  | _ => Option.none

/-- A grant whose schema has a field named `a.b`. -/
def dottedNameGrant : TerraformGrantResource :=
  { schema :=
      [("privilege", .mk .TypeString .none "The privilege to grant."),
        ("roles", .mk .TypeSet (.schema (.mk .TypeString .none "")) "Grants privilege to these roles."),
        ("a.b", .mk .TypeString .none "A field with a dot in its name.")]
    validPrivs := ["USAGE"] }

/-! ### The generated expressions, read as expressions -/

/-- The expressions of the target configuration language that occur in a union
expression: a reference (`var.roles`, `each.value`), the empty list `[]`, an
object `{ a = e, b = e }`, `lookup(m, key, default)`, an attribute `e.name` and
`setunion(a, b)`. -/
inductive TfExpr
  | ref (path : String)
  | emptyList
  | object (fields : List (String × TfExpr))
  | lookup (m key dflt : TfExpr)
  | attr (e : TfExpr) (name : String)
  | setunion (a b : TfExpr)

/-- The values those expressions take: a string, a list of strings, a set of
strings, an object and a map. -/
inductive TfValue
  | str (s : String)
  | strings (xs : List String)
  | set (xs : Finset String)
  | object (fields : List (String × TfValue))
  | map (entries : List (String × TfValue))

/-- The elements of a list or set of strings, as a set. -/
def TfValue.toSet : TfValue → Option (Finset String)
  | .strings xs => some xs.toFinset
  | .set xs => some xs
  | _ => Option.none

mutual
/-- The text of an expression, laid out as `generateModule` lays out a union
expression. -/
def TfExpr.render : TfExpr → String
  | .ref path => path
  | .emptyList => "[]"
  | .object fields => "\x7b " ++ ", ".intercalate (TfExpr.renderFields fields) ++ " \x7d"
  | .lookup m key dflt =>
    "lookup(" ++ TfExpr.render m ++ ", " ++ TfExpr.render key ++ ", " ++ TfExpr.render dflt ++ ")"
  | .attr e name => TfExpr.render e ++ "." ++ name
  | .setunion a b =>
    "setunion(\n\t\t\t\t" ++ TfExpr.render a ++ ",\n\t\t\t\t" ++ TfExpr.render b ++ ",\n\t\t\t\t)"
/-- The texts `name = value` of the fields of an object. -/
def TfExpr.renderFields : List (String × TfExpr) → List String
  | [] => []
  | (name, e) :: rest => (name ++ " = " ++ TfExpr.render e) :: TfExpr.renderFields rest
end

/-- The interpolation `${ ... }` of an expression. -/
def TfExpr.template (e : TfExpr) : String :=
  "$\x7b" ++ e.render ++ "\x7d"

mutual
/-- Modelled from the spec: the meaning of the union expression, which is
evaluated by the target configuration language and not by code of this
repository.  `setunion` is the union of its arguments as sets, and
`lookup(m, key, default)` is the entry of `m` under `key` when there is one and
`default` otherwise ("a lookup into the per-privilege override map keyed by the
current privilege value, falling back to `defaultExpr` when no override exists
for that privilege"). -/
def TfExpr.eval (env : String → Option TfValue) : TfExpr → Option TfValue
  | .ref path => env path
  | .emptyList => some (.strings [])
  | .object fields => (TfExpr.evalFields env fields).map TfValue.object
  | .lookup m key dflt =>
    match TfExpr.eval env m, TfExpr.eval env key, TfExpr.eval env dflt with
    | some (.map entries), some (.str k), some d => some ((entries.lookup k).getD d)
    | _, _, _ => Option.none
  | .attr e name =>
    match TfExpr.eval env e with
    | some (.object fields) => fields.lookup name
    | _ => Option.none
  | .setunion a b =>
    match TfExpr.eval env a, TfExpr.eval env b with
    | some va, some vb =>
      match va.toSet, vb.toSet with
      | some sa, some sb => some (.set (sa ∪ sb))
      | _, _ => Option.none
    | _, _ => Option.none
/-- The values of the fields of an object. -/
def TfExpr.evalFields (env : String → Option TfValue) :
    List (String × TfExpr) → Option (List (String × TfValue))
  | [] => some []
  | (name, e) :: rest =>
    match TfExpr.eval env e, TfExpr.evalFields env rest with
    | some v, some vs => some ((name, v) :: vs)
    | _, _ => Option.none
end

/-- The union expression of the element `f` over the default expression `d`:
`setunion(var.f, lookup(var.per_privilege_grants, each.value, d).f)`. -/
def unionAst (f : String) (d : TfExpr) : TfExpr :=
  .setunion (.ref ("var." ++ f))
    (.attr (.lookup (.ref "var.per_privilege_grants") (.ref "each.value") d) f)

/-- The default expression of a schema: an object with the field `shares = []`
when the schema has `shares` and the field `roles = []` when it has `roles`. -/
def defaultAst (schema : List (String × Schema)) : TfExpr :=
  .object
    ((if hasKey schema "shares" then [("shares", TfExpr.emptyList)] else []) ++
      (if hasKey schema "roles" then [("roles", TfExpr.emptyList)] else []))

/-- An override object `{ name = [..], .. }` as a value. -/
def overrideValue (obj : List (String × List String)) : TfValue :=
  .object (obj.map (fun f => (f.1, TfValue.strings f.2)))

/-- The environment of one iteration of the resource: the module-level list
`var.roles`, the override map `var.per_privilege_grants` and the current
privilege `each.value`. -/
def iterationEnv (roles : List String) (overrides : List (String × List (String × List String)))
    (privilege : String) : String → Option TfValue :=
  fun path =>
    if path = "var.roles" then some (.strings roles)
    else if path = "var.per_privilege_grants" then
      some (.map (overrides.map (fun o => (o.1, overrideValue o.2))))
    else if path = "each.value" then some (.str privilege)
    else Option.none

/-! ### The same schema visited in another order -/

mutual
/-- Two fields that differ only in the order in which the maps inside them
are visited: the element of a Set may be such a field again, and the nested
fields of a List may be visited in another order and be such fields again. -/
inductive SameSchema : Schema → Schema → Prop
  | refl (s : Schema) : SameSchema s s
  | set (e e' : Schema) (d : String) :
      SameSchema e e' → SameSchema (.mk .TypeSet (.schema e) d) (.mk .TypeSet (.schema e') d)
  | list (fields fields' : List (String × Schema)) (d : String) :
      SameFields fields fields' →
        SameSchema (.mk .TypeList (.resource fields) d) (.mk .TypeList (.resource fields') d)
/-- Two visiting orders of one schema map, at every nesting level: the entries
are rearranged, and under each name stands the same field up to visiting
order. -/
inductive SameFields : List (String × Schema) → List (String × Schema) → Prop
  | nil : SameFields [] []
  | cons (name : String) (s s' : Schema) (fields fields' : List (String × Schema)) :
      SameSchema s s' → SameFields fields fields' →
        SameFields ((name, s) :: fields) ((name, s') :: fields')
  | swap (f g : String × Schema) (fields : List (String × Schema)) :
      SameFields (f :: g :: fields) (g :: f :: fields)
  | trans (fields₁ fields₂ fields₃ : List (String × Schema)) :
      SameFields fields₁ fields₂ → SameFields fields₂ fields₃ → SameFields fields₁ fields₃
end

/-- Two fields with the same description on which `reverseType` succeeds with
the same type expression. -/
def SameReverse (s s' : Schema) : Prop :=
  s.description = s'.description ∧ ∀ t, reverseType s = .ok t ↔ reverseType s' = .ok t

/-- Two entries with the same name whose fields are the same to
`reverseType`. -/
def SameEntry (f f' : String × Schema) : Prop :=
  f.1 = f'.1 ∧ SameReverse f.2 f'.2

/-- The entries of the second list are, in some order, the entries of the
first list up to `SameEntry`. -/
def Rearranged (fields fields' : List (String × Schema)) : Prop :=
  ∃ l, fields.Perm l ∧ List.Forall₂ SameEntry l fields'

/-- A grant with a nested List field, visited in one order. -/
def nestedGrant : TerraformGrantResource :=
  { schema :=
      [("privilege", .mk .TypeString .none "The privilege to grant."),
        ("roles", .mk .TypeSet (.schema (.mk .TypeString .none "")) "Grants privilege to these roles."),
        ("columns", .mk .TypeList
          (.resource [("name", .mk .TypeString .none ""), ("masked", .mk .TypeBool .none "")])
          "The columns.")]
    validPrivs := ["SELECT", "INSERT"] }

/-- The grant `nestedGrant` with its maps and its privilege set visited in
another order. -/
def nestedGrantReordered : TerraformGrantResource :=
  { schema :=
      [("columns", .mk .TypeList
          (.resource [("masked", .mk .TypeBool .none ""), ("name", .mk .TypeString .none "")])
          "The columns."),
        ("privilege", .mk .TypeString .none "The privilege to grant."),
        ("roles", .mk .TypeSet (.schema (.mk .TypeString .none "")) "Grants privilege to these roles.")]
    validPrivs := ["INSERT", "SELECT"] }

/-- A grant whose schema has a field named `for_each`. -/
def forEachGrant : TerraformGrantResource :=
  { schema :=
      [("privilege", .mk .TypeString .none "The privilege to grant."),
        ("for_each", .mk .TypeString .none "A field named like the meta-argument.")]
    validPrivs := ["USAGE"] }

/-- A grant whose `privilege` field has the unsupported kind `TypeInt` and whose
other field is supported. -/
def intPrivilegeGrant : TerraformGrantResource :=
  { schema :=
      [("privilege", .mk .TypeInt .none "The privilege to grant."),
        ("roles", .mk .TypeSet (.schema (.mk .TypeString .none "")) "Grants privilege to these roles.")]
    validPrivs := ["USAGE"] }

/-- A grant with a field `size` of the unsupported kind `TypeInt`. -/
def intFieldGrant : TerraformGrantResource :=
  { schema :=
      [("privilege", .mk .TypeString .none "The privilege to grant."),
        ("size", .mk .TypeInt .none "A number.")]
    validPrivs := ["USAGE"] }

/-- An operating system on which every call of `writeModule` succeeds. -/
def agreeableOs : Os :=
  { getwd := .ok "/repo/scripts/snowflake_generate_grant_all"
    join := fun parts => "/".intercalate parts
    mkdirAll := fun _ => Option.none
    writeFile := fun _ => Option.none }

/-- Collaborators that always succeed. -/
def agreeableCollaborators : Collaborators :=
  { generateTest := fun _ => .ok "package test"
    ensureCI := fun _ => .ok () }

/-- Two nested Boolean fields, named `a` and `a ` (with a trailing space). -/
def spacedNameFields : List (String × Schema) :=
  [("a", .mk .TypeBool .none ""), ("a ", .mk .TypeBool .none "")]

/-- Two nested fields of unsupported kinds: `x` of kind `TypeInt` and `y` of
kind `TypeFloat`. -/
def twoUnsupportedFields : List (String × Schema) :=
  [("x", .mk .TypeInt .none ""), ("y", .mk .TypeFloat .none "")]

/-! ## The order of `sort.Strings` -/

instance strLE.isTrans : IsTrans String strLE :=
  ⟨fun a b c (h₁ : a.toList ≤ b.toList) (h₂ : b.toList ≤ c.toList) => le_trans h₁ h₂⟩

instance strLE.isTotal : IsTotal String strLE :=
  ⟨fun a b => le_total a.toList b.toList⟩

instance strLE.isAntisymm : IsAntisymm String strLE :=
  ⟨fun _ _ (h₁ : _ ≤ _) (h₂ : _ ≤ _) => String.toList_inj.1 (le_antisymm h₁ h₂)⟩

theorem strLE_iff_le (a b : String) : strLE a b ↔ a ≤ b :=
  String.le_iff_toList_le.symm

theorem sortStrings_perm (l : List String) : (sortStrings l).Perm l :=
  List.perm_insertionSort strLE l

theorem sortStrings_sorted (l : List String) : (sortStrings l).Sorted strLE :=
  List.sorted_insertionSort strLE l

/-- A sorted rearrangement of `l` is `sortStrings l`: the model of `sort.Strings`
does not depend on the sorting algorithm. -/
theorem eq_sortStrings {l r : List String} (hp : r.Perm l) (hs : r.Sorted strLE) :
    r = sortStrings l :=
  List.eq_of_perm_of_sorted (hp.trans (sortStrings_perm l).symm) hs (sortStrings_sorted l)

theorem sortStrings_congr {l₁ l₂ : List String} (h : l₁.Perm l₂) :
    sortStrings l₁ = sortStrings l₂ :=
  eq_sortStrings ((sortStrings_perm l₁).trans h) (sortStrings_sorted l₁)

/-! ## The loop of `reverseType` -/

theorem isOk_iff {α : Type} (o : Outcome α) : o.isOk = true ↔ ∃ v, o = .ok v := by
  cases o <;> simp [Outcome.isOk]

theorem reverseType_list (fields : List (String × Schema)) (d : String) :
    reverseType (.mk .TypeList (.resource fields) d) =
      match reverseTypeLoop fields [] with
      | .ok innerElements => .ok (listOfObject innerElements)
      | .error err => .error err
      | .panic => .panic := by
  rw [reverseType]; rfl

theorem reverseTypeLoop_ok (fields : List (String × Schema)) :
    ∀ acc : List String, (∀ f ∈ fields, (reverseType f.2).isOk = true) →
      ∃ r, reverseTypeLoop fields acc = .ok r ∧ r.Perm (acc ++ fields.map innerElement) ∧
        (acc.Sorted strLE → r.Sorted strLE) := by
  induction fields with
  | nil => intro acc _; exact ⟨acc, by simp [reverseTypeLoop], by simp, id⟩
  | cons f rest ih =>
    intro acc h
    obtain ⟨name, s⟩ := f
    obtain ⟨inner, hs⟩ := (isOk_iff _).1 (h (name, s) (List.mem_cons_self _ _))
    obtain ⟨r, hr, hperm, hsorted⟩ :=
      ih (sortStrings (acc ++ [name ++ " = " ++ inner]))
        (fun f hf => h f (List.mem_cons_of_mem _ hf))
    refine ⟨r, ?_, ?_, fun _ => hsorted (sortStrings_sorted _)⟩
    · simp only [reverseTypeLoop, hs]; exact hr
    · refine hperm.trans ?_
      have : innerElement (name, s) = name ++ " = " ++ inner := by
        simp [innerElement, hs, Outcome.str]
      rw [List.map_cons, this]
      simpa using (sortStrings_perm (acc ++ [name ++ " = " ++ inner])).append_right _

theorem reverseTypeLoop_eq_sort (fields : List (String × Schema))
    (h : ∀ f ∈ fields, (reverseType f.2).isOk = true) :
    reverseTypeLoop fields [] = .ok (sortStrings (fields.map innerElement)) := by
  obtain ⟨r, hr, hperm, hsorted⟩ := reverseTypeLoop_ok fields [] h
  rw [hr, eq_sortStrings (by simpa using hperm) (hsorted List.sorted_nil)]

theorem reverseTypeLoop_isOk (fields : List (String × Schema)) :
    ∀ acc r, reverseTypeLoop fields acc = .ok r → ∀ f ∈ fields, (reverseType f.2).isOk = true := by
  induction fields with
  | nil => intro _ _ _ f hf; simp at hf
  | cons g rest ih =>
    intro acc r h f hf
    obtain ⟨name, s⟩ := g
    rw [reverseTypeLoop] at h
    cases hs : reverseType s with
    | ok inner =>
      rw [hs] at h
      rcases List.mem_cons.1 hf with rfl | hf
      · simp [hs, Outcome.isOk]
      · exact ih _ _ h f hf
    | error err => rw [hs] at h; simp at h
    | panic => rw [hs] at h; simp at h

theorem reverseType_list_isOk {fields : List (String × Schema)} {d : String}
    (h : (reverseType (.mk .TypeList (.resource fields) d)).isOk = true) :
    ∀ f ∈ fields, (reverseType f.2).isOk = true := by
  rw [reverseType_list] at h
  cases hl : reverseTypeLoop fields [] with
  | ok r => exact reverseTypeLoop_isOk fields [] r hl
  | error err => rw [hl] at h; simp [Outcome.isOk] at h
  | panic => rw [hl] at h; simp [Outcome.isOk] at h

theorem reverseType_list_eq_sort (fields : List (String × Schema)) (d : String)
    (h : ∀ f ∈ fields, (reverseType f.2).isOk = true) :
    reverseType (.mk .TypeList (.resource fields) d) =
      .ok (listOfObject (sortStrings (fields.map innerElement))) := by
  rw [reverseType_list, reverseTypeLoop_eq_sort fields h]

/-! ## Entries in name order -/

theorem lex_append_space {l₁ l₂ : List Char} (h : l₁ < l₂) (hc : ∀ c ∈ l₂, ' ' < c)
    (r₁ r₂ : List Char) : l₁ ++ ' ' :: r₁ < l₂ ++ r₂ := by
  induction h with
  | nil => exact List.Lex.rel (hc _ (List.mem_cons_self _ _))
  | cons _ ih => exact List.Lex.cons (ih (fun c hc' => hc c (List.mem_cons_of_mem _ hc')))
  | rel hab => exact List.Lex.rel hab

theorem innerElement_toList (f : String × Schema) :
    (innerElement f).toList = f.1.toList ++ ' ' :: ('=' :: ' ' :: (reverseType f.2).str.toList) := by
  simp [innerElement, String.toList]

theorem innerElement_le {f g : String × Schema} (hle : strLE f.1 g.1) (hne : f.1 ≠ g.1)
    (hc : ∀ c ∈ g.1.toList, ' ' < c) : strLE (innerElement f) (innerElement g) := by
  have hlt : f.1.toList < g.1.toList :=
    lt_of_le_of_ne hle (fun h => hne (String.toList_inj.1 h))
  have := lex_append_space hlt hc ('=' :: ' ' :: (reverseType f.2).str.toList)
    (' ' :: '=' :: ' ' :: (reverseType g.2).str.toList)
  show (innerElement f).toList ≤ (innerElement g).toList
  rw [innerElement_toList, innerElement_toList]
  exact le_of_lt this

theorem sortByName_perm (fields : List (String × Schema)) :
    (sortByName fields).Perm fields :=
  List.perm_insertionSort _ fields

theorem sortByName_sorted (fields : List (String × Schema)) :
    (sortByName fields).Sorted (fun f g => strLE f.1 g.1) := by
  haveI : IsTotal (String × Schema) (fun f g => strLE f.1 g.1) :=
    ⟨fun f g => strLE.isTotal.total f.1 g.1⟩
  haveI : IsTrans (String × Schema) (fun f g => strLE f.1 g.1) :=
    ⟨fun f g k h₁ h₂ => strLE.isTrans.trans f.1 g.1 k.1 h₁ h₂⟩
  exact List.sorted_insertionSort _ fields

theorem sort_map_innerElement (fields : List (String × Schema))
    (hnd : (fields.map Prod.fst).Nodup)
    (hc : ∀ f ∈ fields, ∀ c ∈ f.1.toList, ' ' < c) :
    sortStrings (fields.map innerElement) = (sortByName fields).map innerElement := by
  symm
  apply eq_sortStrings ((sortByName_perm fields).map _)
  have hnd' : (sortByName fields).Pairwise (fun f g => f.1 ≠ g.1) := by
    have : ((sortByName fields).map Prod.fst).Nodup :=
      ((sortByName_perm fields).map Prod.fst).nodup_iff.2 hnd
    exact List.pairwise_map.1 this
  have hboth := (sortByName_sorted fields).and hnd'
  refine List.pairwise_map.2 (hboth.imp_of_mem ?_)
  intro f g _ hg h
  exact innerElement_le h.1 h.2 (hc g ((sortByName_perm fields).mem_iff.1 hg))

/-! ## Failure of `reverseType` -/

theorem Schema.induct {P : Schema → Prop}
    (hmk : ∀ t el d, (∀ e, el = .schema e → P e) →
      (∀ fields, el = .resource fields → ∀ f ∈ fields, P f.2) → P (.mk t el d)) :
    ∀ s, P s := by
  intro s
  refine Schema.rec (motive_1 := P)
    (motive_2 := fun el => (∀ e, el = .schema e → P e) ∧
      (∀ fields, el = .resource fields → ∀ f ∈ fields, P f.2))
    (motive_3 := fun fields => ∀ f ∈ fields, P f.2)
    (motive_4 := fun f => P f.2) ?_ ?_ ?_ ?_ ?_ ?_ ?_ ?_ s
  · intro t el d h; exact hmk t el d h.1 h.2
  · exact ⟨fun e h => (by cases h), fun fs h => (by cases h)⟩
  · intro e he; exact ⟨fun e' h => (by cases h; exact he), fun fs h => (by cases h)⟩
  · intro fs hfs; exact ⟨fun e' h => (by cases h), fun fs' h => (by cases h; exact hfs)⟩
  · exact ⟨fun e h => (by cases h), fun fs h => (by cases h)⟩
  · intro f hf; cases hf
  · intro hd tl hhd htl f hf
    rcases List.mem_cons.1 hf with rfl | hf
    · exact hhd
    · exact htl f hf
  · intro name s hs; exact hs

theorem reverseType_set (e : Schema) (d : String) :
    reverseType (.mk .TypeSet (.schema e) d) =
      match reverseType e with
      | .ok inner => .ok ("set(" ++ inner ++ ")")
      | .error err => .error err
      | .panic => .panic := by
  rw [reverseType]

theorem reverseType_unsupported (t : ValueType) (el : Elem Schema) (d : String)
    (h : t.unsupported = true) :
    reverseType (.mk t el d) = .error ("Unrecognized type " ++ t.String) := by
  cases t <;> simp [ValueType.unsupported] at h <;> cases el <;> rfl

theorem reverseTypeLoop_error (fields : List (String × Schema)) :
    ∀ acc msg, reverseTypeLoop fields acc = .error msg →
      ∃ f ∈ fields, reverseType f.2 = .error msg := by
  induction fields with
  | nil => intro acc msg h; simp [reverseTypeLoop] at h
  | cons g rest ih =>
    intro acc msg h
    obtain ⟨name, s⟩ := g
    rw [reverseTypeLoop] at h
    cases hs : reverseType s with
    | ok inner =>
      rw [hs] at h
      obtain ⟨f, hf, hfe⟩ := ih _ _ h
      exact ⟨f, List.mem_cons_of_mem _ hf, hfe⟩
    | error err =>
      rw [hs] at h
      simp only [Outcome.error.injEq] at h
      exact ⟨(name, s), List.mem_cons_self _ _, by rw [← h]; exact hs⟩
    | panic => rw [hs] at h; simp at h

theorem reverseTypeLoop_panic (fields : List (String × Schema)) :
    ∀ acc, reverseTypeLoop fields acc = .panic →
      ∃ f ∈ fields, reverseType f.2 = .panic := by
  induction fields with
  | nil => intro acc h; simp [reverseTypeLoop] at h
  | cons g rest ih =>
    intro acc h
    obtain ⟨name, s⟩ := g
    rw [reverseTypeLoop] at h
    cases hs : reverseType s with
    | ok inner =>
      rw [hs] at h
      obtain ⟨f, hf, hfe⟩ := ih _ h
      exact ⟨f, List.mem_cons_of_mem _ hf, hfe⟩
    | error err => rw [hs] at h; simp at h
    | panic => exact ⟨(name, s), List.mem_cons_self _ _, hs⟩

theorem reverseType_set_panic (el : Elem Schema) (d : String)
    (h : ∀ e, el ≠ .schema e) : reverseType (.mk .TypeSet el d) = .panic := by
  cases el with
  | schema e => exact absurd rfl (h e)
  | none => rfl
  | resource fields => rfl
  | other => rfl

theorem reverseType_list_panic (el : Elem Schema) (d : String)
    (h : ∀ fields, el ≠ .resource fields) : reverseType (.mk .TypeList el d) = .panic := by
  cases el with
  | resource fields => exact absurd rfl (h fields)
  | none => rfl
  | schema e => rfl
  | other => rfl

/-- An error of `reverseType` names an unsupported kind that is reachable from
the field. -/
theorem error_names_reachable_kind :
    ∀ s msg, reverseType s = .error msg →
      ∃ s', Reaches s s' ∧ s'.type.unsupported = true ∧
        msg = "Unrecognized type " ++ s'.type.String := by
  intro s
  induction s using Schema.induct with
  | hmk t el d ihe ihf =>
    intro msg h
    by_cases hu : t.unsupported = true
    · rw [reverseType_unsupported t el d hu] at h
      simp only [Outcome.error.injEq] at h
      exact ⟨_, Reaches.self _, hu, h.symm⟩
    · cases t with
      | TypeBool => rw [reverseType] at h; cases h
      | TypeString => rw [reverseType] at h; cases h
      | TypeSet =>
        by_cases hel : ∃ e, el = .schema e
        · obtain ⟨e, rfl⟩ := hel
          rw [reverseType_set] at h
          cases he : reverseType e with
          | ok inner => rw [he] at h; simp at h
          | error err =>
            rw [he] at h
            simp only [Outcome.error.injEq] at h
            subst h
            obtain ⟨s', hr, hs', hm⟩ := ihe e rfl err he
            exact ⟨s', Reaches.setElem e d s' hr, hs', hm⟩
          | panic => rw [he] at h; simp at h
        · rw [reverseType_set_panic el d (fun e he => hel ⟨e, he⟩)] at h
          cases h
      | TypeList =>
        by_cases hel : ∃ fields, el = .resource fields
        · obtain ⟨fields, rfl⟩ := hel
          rw [reverseType_list] at h
          cases hl : reverseTypeLoop fields [] with
          | ok r => rw [hl] at h; simp at h
          | error err =>
            rw [hl] at h
            simp only [Outcome.error.injEq] at h
            subst h
            obtain ⟨f, hf, hfe⟩ := reverseTypeLoop_error fields [] err hl
            obtain ⟨s', hr, hs', hm⟩ := ihf fields rfl f hf err hfe
            exact ⟨s', Reaches.nested fields d f s' hf hr, hs', hm⟩
          | panic => rw [hl] at h; simp at h
        · rw [reverseType_list_panic el d (fun fs he => hel ⟨fs, he⟩)] at h
          cases h
      | _ => exact absurd rfl hu

theorem WellShaped.setElem {e : Schema} {d : String}
    (h : WellShaped (.mk .TypeSet (.schema e) d)) : WellShaped e :=
  fun s' hr => h s' (Reaches.setElem e d s' hr)

theorem WellShaped.nested {fields : List (String × Schema)} {d : String}
    (h : WellShaped (.mk .TypeList (.resource fields) d)) {f : String × Schema}
    (hf : f ∈ fields) : WellShaped f.2 :=
  fun s' hr => h s' (Reaches.nested fields d f s' hf hr)

/-- A well-shaped field does not make `reverseType` panic. -/
theorem reverseType_ne_panic : ∀ s, WellShaped s → reverseType s ≠ .panic := by
  intro s
  induction s using Schema.induct with
  | hmk t el d ihe ihf =>
    intro hw h
    have hshape := hw _ (Reaches.self _)
    by_cases hu : t.unsupported = true
    · rw [reverseType_unsupported t el d hu] at h; cases h
    cases t with
    | TypeBool => rw [reverseType] at h; cases h
    | TypeString => rw [reverseType] at h; cases h
    | TypeSet =>
      obtain ⟨e, he⟩ := hshape.1 rfl
      have he' : el = .schema e := he
      subst he'
      rw [reverseType_set] at h
      cases hr : reverseType e with
      | ok inner => rw [hr] at h; simp at h
      | error err => rw [hr] at h; simp at h
      | panic => exact ihe e rfl hw.setElem hr
    | TypeList =>
      obtain ⟨fields, he⟩ := hshape.2 rfl
      have he' : el = .resource fields := he
      subst he'
      rw [reverseType_list] at h
      cases hl : reverseTypeLoop fields [] with
      | ok r => rw [hl] at h; simp at h
      | error err => rw [hl] at h; simp at h
      | panic =>
        obtain ⟨f, hf, hfp⟩ := reverseTypeLoop_panic fields [] hl
        exact ihf fields rfl f hf (hw.nested hf) hfp
    | _ => exact absurd rfl hu

/-- An unsupported kind reachable from a well-shaped field makes `reverseType`
return an error. -/
theorem reachable_unsupported_kind_fails {s s' : Schema} (hr : Reaches s s') :
    WellShaped s → s'.type.unsupported = true → (reverseType s).isError = true := by
  induction hr with
  | self s =>
    intro _ hu
    obtain ⟨t, el, d⟩ := s
    rw [reverseType_unsupported t el d hu]; rfl
  | setElem e d s' _ ih =>
    intro hw hu
    have := ih hw.setElem hu
    rw [reverseType_set]
    cases he : reverseType e with
    | ok inner => rw [he] at this; simp [Outcome.isError] at this
    | error err => rfl
    | panic => rw [he] at this; simp [Outcome.isError] at this
  | nested fields d f s' hf _ ih =>
    intro hw hu
    have hfe := ih (hw.nested hf) hu
    cases h : reverseType (.mk .TypeList (.resource fields) d) with
    | ok t =>
      have := reverseType_list_isOk (d := d) (by rw [h]; rfl) f hf
      cases hf' : reverseType f.2 with
      | ok v => rw [hf'] at hfe; simp [Outcome.isError] at hfe
      | error err => rw [hf'] at this; simp [Outcome.isOk] at this
      | panic => rw [hf'] at this; simp [Outcome.isOk] at this
    | error err => rfl
    | panic => exact absurd h (reverseType_ne_panic _ hw)

/-! ## The variables of `generateModule` -/

theorem mapSet_self {V : Type} (m : GoMap V) (k : String) (v : V) : mapSet m k v k = some v := by
  simp [mapSet]

theorem mapSet_of_ne {V : Type} (m : GoMap V) {k k' : String} (v : V) (h : k' ≠ k) :
    mapSet m k v k' = m k' := by
  simp [mapSet, h]

theorem hasKey_iff (schema : List (String × Schema)) (k : String) :
    hasKey schema k = true ↔ k ∈ schema.map Prod.fst := by
  induction schema with
  | nil => simp [hasKey]
  | cons f rest ih =>
    obtain ⟨n, c⟩ := f
    by_cases hk : k = n
    · subst hk; simp [hasKey, List.lookup]
    · have hbeq : (k == n) = false := by simpa using hk
      simp only [hasKey, List.lookup, hbeq, List.map_cons, List.mem_cons, hk, false_or]
      exact ih

/-- What the assembled document is when `generateModule` succeeds. -/
theorem generateModule_ok {name : String} {grant : TerraformGrantResource} {m : ModuleTemplate}
    (h : generateModule name grant = .ok m) :
    ∃ vars, collectVariables grant.schema mapEmpty = .ok vars ∧
      m.Variables = mapSet vars perPrivTypeVarName
        { TType := perPrivType grant.schema
          Description := perPrivDescription
          Default := .emptyMap } ∧
      m.Locals = mapSet mapEmpty "privileges" (sortStrings grant.validPrivs) ∧
      m.Resources = mapSet mapEmpty name (mapSet mapEmpty "all"
        (fillResourceAll (defaultPrivType grant.schema) grant.schema
          (mapSet (mapSet mapEmpty "for_each" "$\x7btoset(local.privileges)\x7d")
            "privilege" "$\x7beach.value\x7d"))) := by
  unfold generateModule at h
  cases hc : collectVariables grant.schema mapEmpty with
  | ok vars =>
    rw [hc] at h
    simp only [Outcome.ok.injEq] at h
    subst h
    exact ⟨vars, rfl, rfl, rfl, rfl⟩
  | error err => rw [hc] at h; simp at h
  | panic => rw [hc] at h; simp at h

/-- The first loop succeeds exactly when `reverseType` succeeds on every field
not named `privilege`. -/
theorem collectVariables_isOk (fields : List (String × Schema)) :
    ∀ vars, (collectVariables fields vars).isOk = true ↔
      ∀ f ∈ fields, f.1 ≠ "privilege" → (reverseType f.2).isOk = true := by
  induction fields with
  | nil => intro vars; simp [collectVariables, Outcome.isOk]
  | cons g rest ih =>
    intro vars
    obtain ⟨n, c⟩ := g
    rw [collectVariables]
    by_cases hn : n = "privilege"
    · simp only [hn, if_true, ih, List.mem_cons, forall_eq_or_imp, ne_eq, not_true_eq_false,
        false_imp_iff, true_and]
    · simp only [hn, if_false, List.mem_cons, forall_eq_or_imp, ne_eq, not_false_eq_true,
        true_imp_iff]
      cases hc : reverseType c with
      | ok t => rw [ih]; exact ⟨fun h => ⟨rfl, h⟩, fun h => h.2⟩
      | error err => simp [Outcome.isOk]
      | panic => simp [Outcome.isOk]

/-- The first loop leaves alone the key `privilege` and every key that is not
a field name. -/
theorem collectVariables_untouched (fields : List (String × Schema)) :
    ∀ vars vars', collectVariables fields vars = .ok vars' →
      ∀ k, (k = "privilege" ∨ k ∉ fields.map Prod.fst) → vars' k = vars k := by
  induction fields with
  | nil => intro vars vars' h k _; simp [collectVariables] at h; rw [h]
  | cons g rest ih =>
    intro vars vars' h k hk
    obtain ⟨n, c⟩ := g
    rw [collectVariables] at h
    have hk' : k = "privilege" ∨ k ∉ rest.map Prod.fst := by
      rcases hk with hk | hk
      · exact Or.inl hk
      · exact Or.inr (fun hmem => hk (List.mem_cons_of_mem _ hmem))
    by_cases hn : n = "privilege"
    · rw [if_pos hn] at h
      exact ih _ _ h k hk'
    · rw [if_neg hn] at h
      cases hc : reverseType c with
      | ok t =>
        rw [hc] at h
        rw [ih _ _ h k hk']
        apply mapSet_of_ne
        rcases hk with hk | hk
        · rw [hk]; exact fun e => hn e.symm
        · exact fun e => hk (by simp [e])
      | error err => rw [hc] at h; simp at h
      | panic => rw [hc] at h; simp at h

/-- A key that is set stays set through the first loop. -/
theorem collectVariables_isSome (fields : List (String × Schema)) :
    ∀ vars vars', collectVariables fields vars = .ok vars' →
      ∀ k, (vars k).isSome = true → (vars' k).isSome = true := by
  induction fields with
  | nil => intro vars vars' h k hk; simp [collectVariables] at h; rw [← h]; exact hk
  | cons g rest ih =>
    intro vars vars' h k hk
    obtain ⟨n, c⟩ := g
    rw [collectVariables] at h
    by_cases hn : n = "privilege"
    · rw [if_pos hn] at h
      exact ih _ _ h k hk
    · rw [if_neg hn] at h
      cases hc : reverseType c with
      | ok t =>
        rw [hc] at h
        refine ih _ _ h k ?_
        by_cases hkn : k = n
        · rw [hkn, mapSet_self]; rfl
        · rw [mapSet_of_ne _ _ hkn]; exact hk
      | error err => rw [hc] at h; simp at h
      | panic => rw [hc] at h; simp at h

/-- Every field not named `privilege` is a key after the first loop. -/
theorem collectVariables_mem (fields : List (String × Schema)) :
    ∀ vars vars', collectVariables fields vars = .ok vars' →
      ∀ k ∈ fields.map Prod.fst, k ≠ "privilege" → (vars' k).isSome = true := by
  induction fields with
  | nil => intro _ _ _ k hk; simp at hk
  | cons g rest ih =>
    intro vars vars' h k hk hp
    obtain ⟨n, c⟩ := g
    rw [collectVariables] at h
    simp only [List.map_cons, List.mem_cons] at hk
    by_cases hn : n = "privilege"
    · rw [if_pos hn] at h
      rcases hk with hk | hk
      · exact absurd (hk.trans hn) hp
      · exact ih _ _ h k hk hp
    · rw [if_neg hn] at h
      cases hc : reverseType c with
      | ok t =>
        rw [hc] at h
        rcases hk with hk | hk
        · exact collectVariables_isSome rest _ _ h k (by rw [hk, mapSet_self]; rfl)
        · exact ih _ _ h k hk hp
      | error err => rw [hc] at h; simp at h
      | panic => rw [hc] at h; simp at h

/-- With distinct field names, the variable of a field not named `privilege`
has the type `reverseType` gives the field, the field's description and a nil
default. -/
theorem collectVariables_value (fields : List (String × Schema)) :
    ∀ vars vars', collectVariables fields vars = .ok vars' →
      (fields.map Prod.fst).Nodup → ∀ f ∈ fields, f.1 ≠ "privilege" →
        ∃ t, reverseType f.2 = .ok t ∧
          vars' f.1 = some { TType := t, Description := f.2.description, Default := .null } := by
  induction fields with
  | nil => intro _ _ _ _ f hf; simp at hf
  | cons g rest ih =>
    intro vars vars' h hnd f hf hp
    obtain ⟨n, c⟩ := g
    rw [collectVariables] at h
    rw [List.map_cons, List.nodup_cons] at hnd
    by_cases hn : n = "privilege"
    · rw [if_pos hn] at h
      rcases List.mem_cons.1 hf with rfl | hf
      · exact absurd hn hp
      · exact ih _ _ h hnd.2 f hf hp
    · rw [if_neg hn] at h
      cases hc : reverseType c with
      | ok t =>
        rw [hc] at h
        rcases List.mem_cons.1 hf with rfl | hf
        · refine ⟨t, hc, ?_⟩
          rw [collectVariables_untouched rest _ _ h _ (Or.inr hnd.1), mapSet_self]
        · exact ih _ _ h hnd.2 f hf hp
      | error err => rw [hc] at h; simp at h
      | panic => rw [hc] at h; simp at h

/-! ## Properties of `reverseType` and of the variables -/

/-- C1 (amended).  For a ListOfObject field whose nested fields all reverse
successfully, `reverseType` returns `"list(object({ " + join(", ", entries) + " }))"`
where `entries` holds one string `name + " = " + reverseType(nested field)` per
nested field, listed in lexicographic order of the entry strings themselves;
this is the lexicographic order of the field names whenever the names are
distinct and every character of every name is greater than a space. -/
theorem reverseType_listOfObject (fields : List (String × Schema)) (d : String)
    (h : ∀ f ∈ fields, (reverseType f.2).isOk = true) :
    reverseType (.mk .TypeList (.resource fields) d) =
        .ok ("list(object(\x7b " ++
          ", ".intercalate (sortStrings (fields.map innerElement)) ++ " \x7d))") ∧
      ((fields.map Prod.fst).Nodup → (∀ f ∈ fields, ∀ c ∈ f.1.toList, ' ' < c) →
        sortStrings (fields.map innerElement) = (sortByName fields).map innerElement) :=
  ⟨reverseType_list_eq_sort fields d h, sort_map_innerElement fields⟩

/-- Witness of C1 (amended): the fields `b : Boolean`, `a : String`. -/
theorem reverseType_listOfObject_witness :
    reverseType (.mk .TypeList
        (.resource [("b", .mk .TypeBool .none ""), ("a", .mk .TypeString .none "")]) "") =
      .ok "list(object(\x7b a = string, b = bool \x7d))" ∧
    sortStrings ([("b", .mk .TypeBool .none ""), ("a", .mk .TypeString .none "")].map
        innerElement) =
      (sortByName [("b", .mk .TypeBool .none ""), ("a", .mk .TypeString .none "")]).map
        innerElement :=
  ⟨(reverseType_listOfObject [("b", .mk .TypeBool .none ""), ("a", .mk .TypeString .none "")] ""
      (by decide)).1,
    (reverseType_listOfObject [("b", .mk .TypeBool .none ""), ("a", .mk .TypeString .none "")] ""
      (by decide)).2 (by decide) (by decide)⟩

/-- C1 as stated fails: with the nested Boolean fields named `a` and `a ` (a
trailing space) every nested field reverses, the names are distinct, `a` comes
first in name order, and `reverseType` lists the entry of `a ` first. -/
theorem entries_not_in_name_order :
    (∀ f ∈ spacedNameFields, (reverseType f.2).isOk = true) ∧
      (spacedNameFields.map Prod.fst).Nodup ∧
      (sortByName spacedNameFields).map Prod.fst = ["a", "a "] ∧
      reverseType (.mk .TypeList (.resource spacedNameFields) "") =
        .ok "list(object(\x7b a  = bool, a = bool \x7d))" ∧
      reverseType (.mk .TypeList (.resource spacedNameFields) "") ≠
        .ok ("list(object(\x7b " ++
          ", ".intercalate ((sortByName spacedNameFields).map innerElement) ++ " \x7d))") := by
  decide

/-- C2.  `reverseType` maps a Boolean field to `"bool"`, a String field to
`"string"`, and a Set field whose element reverses successfully to `t` to
`"set(" + t + ")"`; a Set-of-String field yields exactly `"set(string)"`. -/
theorem reverseType_bool_string_set (s : Schema) :
    (s.type = .TypeBool → reverseType s = .ok "bool") ∧
      (s.type = .TypeString → reverseType s = .ok "string") ∧
      (∀ e t, s.type = .TypeSet → s.elem = .schema e → reverseType e = .ok t →
        reverseType s = .ok ("set(" ++ t ++ ")")) ∧
      (∀ e, s.type = .TypeSet → s.elem = .schema e → e.type = .TypeString →
        reverseType s = .ok "set(string)") := by
  obtain ⟨ty, el, d⟩ := s
  refine ⟨?_, ?_, ?_, ?_⟩
  · rintro rfl; rw [reverseType]
  · rintro rfl; rw [reverseType]
  · rintro e t rfl rfl ht
    rw [reverseType, ht]
  · rintro ⟨ty', el', d'⟩ rfl rfl rfl
    rw [reverseType, reverseType]
    rfl

/-- Witness of C2: a Boolean field, a String field, a Set of Boolean and a Set
of String. -/
theorem reverseType_bool_string_set_witness :
    reverseType (.mk .TypeBool .none "") = .ok "bool" ∧
      reverseType (.mk .TypeString .none "") = .ok "string" ∧
      reverseType (.mk .TypeSet (.schema (.mk .TypeBool .none "")) "") = .ok "set(bool)" ∧
      reverseType (.mk .TypeSet (.schema (.mk .TypeString .none "")) "") = .ok "set(string)" :=
  ⟨(reverseType_bool_string_set (.mk .TypeBool .none "")).1 rfl,
    (reverseType_bool_string_set (.mk .TypeString .none "")).2.1 rfl,
    (reverseType_bool_string_set (.mk .TypeSet (.schema (.mk .TypeBool .none "")) "")).2.2.1
      (.mk .TypeBool .none "") "bool" rfl rfl (by decide),
    (reverseType_bool_string_set (.mk .TypeSet (.schema (.mk .TypeString .none "")) "")).2.2.2
      (.mk .TypeString .none "") rfl rfl rfl⟩

/-- C3 (amended).  On success `reverseType` is independent of the order in
which the nested fields of a ListOfObject field are visited: if it returns a
type expression for one visiting order it returns the same expression for
every other, and it succeeds for one order exactly when it succeeds for the
other. -/
theorem reverseType_perm (fields fields' : List (String × Schema)) (d : String)
    (hp : fields.Perm fields') :
    (∀ t, reverseType (.mk .TypeList (.resource fields) d) = .ok t →
        reverseType (.mk .TypeList (.resource fields') d) = .ok t) ∧
      (reverseType (.mk .TypeList (.resource fields) d)).isOk =
        (reverseType (.mk .TypeList (.resource fields') d)).isOk := by
  have key : ∀ (a b : List (String × Schema)), a.Perm b → ∀ t,
      reverseType (.mk .TypeList (.resource a) d) = .ok t →
        reverseType (.mk .TypeList (.resource b) d) = .ok t := by
    intro a b hab t ht
    have ha : ∀ f ∈ a, (reverseType f.2).isOk = true :=
      reverseType_list_isOk (by rw [ht]; rfl)
    have hb : ∀ f ∈ b, (reverseType f.2).isOk = true :=
      fun f hf => ha f (hab.mem_iff.2 hf)
    rw [reverseType_list_eq_sort a d ha] at ht
    rw [reverseType_list_eq_sort b d hb, ← sortStrings_congr (hab.map innerElement)]
    exact ht
  refine ⟨key fields fields' hp, ?_⟩
  cases h : reverseType (.mk .TypeList (.resource fields) d) with
  | ok t => rw [key fields fields' hp t h]
  | error err =>
    cases h' : reverseType (.mk .TypeList (.resource fields') d) with
    | ok t => rw [key fields' fields hp.symm t h'] at h; cases h
    | error err' => rfl
    | panic => rfl
  | panic =>
    cases h' : reverseType (.mk .TypeList (.resource fields') d) with
    | ok t => rw [key fields' fields hp.symm t h'] at h; cases h
    | error err' => rfl
    | panic => rfl

/-- Witness of C3 (amended): the fields `a : Boolean`, `b : String` visited as
`a, b` and as `b, a` both give `list(object({ a = bool, b = string }))`. -/
theorem reverseType_perm_witness :
    reverseType (.mk .TypeList
        (.resource [("a", .mk .TypeBool .none ""), ("b", .mk .TypeString .none "")]) "") =
      .ok "list(object(\x7b a = bool, b = string \x7d))" ∧
    reverseType (.mk .TypeList
        (.resource [("b", .mk .TypeString .none ""), ("a", .mk .TypeBool .none "")]) "") =
      .ok "list(object(\x7b a = bool, b = string \x7d))" :=
  ⟨by decide,
    (reverseType_perm [("a", .mk .TypeBool .none ""), ("b", .mk .TypeString .none "")]
      [("b", .mk .TypeString .none ""), ("a", .mk .TypeBool .none "")] ""
      (List.Perm.swap _ _ _)).1 _ (by decide)⟩

/-- C3 as stated fails: the uniquely named nested fields `x` (kind `TypeInt`)
and `y` (kind `TypeFloat`) give different results in the two visiting orders,
the error of whichever field is visited first. -/
theorem visiting_order_changes_error :
    twoUnsupportedFields.Perm twoUnsupportedFields.reverse ∧
      (twoUnsupportedFields.map Prod.fst).Nodup ∧
      reverseType (.mk .TypeList (.resource twoUnsupportedFields) "") =
        .error "Unrecognized type TypeInt" ∧
      reverseType (.mk .TypeList (.resource twoUnsupportedFields.reverse) "") =
        .error "Unrecognized type TypeFloat" ∧
      reverseType (.mk .TypeList (.resource twoUnsupportedFields) "") ≠
        reverseType (.mk .TypeList (.resource twoUnsupportedFields.reverse) "") :=
  ⟨(List.reverse_perm _).symm, by decide, by decide, by decide, by decide⟩

/-- C4.  `reverseType` fails on every field whose kind is not Boolean, String,
Set or List, with the error `"Unrecognized type " + kind name`; on a well-shaped
field (every reachable Set has a schema element, every reachable List a
resource element) it returns an error if and only if the field itself, its Set
element, or some nested field reachable from it has such a kind; and every
error it returns is `"Unrecognized type "` followed by the name of such a
reachable kind. -/
theorem reverseType_error (s : Schema) :
    (s.type.unsupported = true →
        reverseType s = .error ("Unrecognized type " ++ s.type.String)) ∧
      (WellShaped s →
        ((reverseType s).isError = true ↔
          ∃ s', Reaches s s' ∧ s'.type.unsupported = true)) ∧
      (∀ msg, reverseType s = .error msg →
        ∃ s', Reaches s s' ∧ s'.type.unsupported = true ∧
          msg = "Unrecognized type " ++ s'.type.String) := by
  refine ⟨?_, ?_, error_names_reachable_kind s⟩
  · obtain ⟨t, el, d⟩ := s
    exact reverseType_unsupported t el d
  · intro hw
    constructor
    · intro h
      cases hs : reverseType s with
      | ok v => rw [hs] at h; simp [Outcome.isError] at h
      | error msg =>
        obtain ⟨s', hr, hu, _⟩ := error_names_reachable_kind s msg hs
        exact ⟨s', hr, hu⟩
      | panic => rw [hs] at h; simp [Outcome.isError] at h
    · rintro ⟨s', hr, hu⟩
      exact reachable_unsupported_kind_fails hr hw hu

theorem listWithIntField_wellShaped : WellShaped listWithIntField := by
  intro s' h
  cases h with
  | self => exact ⟨fun h => (by cases h), fun _ => ⟨_, rfl⟩⟩
  | nested _ _ f _ hf hr =>
    simp only [List.mem_cons, List.mem_singleton, List.not_mem_nil, or_false] at hf
    rcases hf with rfl | rfl
    · cases hr with
      | self => exact ⟨fun _ => ⟨_, rfl⟩, fun h => (by cases h)⟩
      | setElem _ _ _ hr' =>
        cases hr' with
        | self => exact ⟨fun h => (by cases h), fun h => (by cases h)⟩
    · cases hr with
      | self => exact ⟨fun h => (by cases h), fun h => (by cases h)⟩

/-- Witness of C4: a field of kind `TypeMap` fails with its kind's name, and the
well-shaped List field `listWithIntField` fails because its nested field `size`
has kind `TypeInt`. -/
theorem reverseType_error_witness :
    reverseType (.mk .TypeMap .none "") = .error "Unrecognized type TypeMap" ∧
      (reverseType listWithIntField).isError = true ∧
      (∃ s', Reaches listWithIntField s' ∧ s'.type.unsupported = true ∧
        "Unrecognized type TypeInt" = "Unrecognized type " ++ s'.type.String) :=
  ⟨(reverseType_error (.mk .TypeMap .none "")).1 rfl,
    ((reverseType_error listWithIntField).2.1 listWithIntField_wellShaped).2
      ⟨.mk .TypeInt .none "",
        Reaches.nested _ _ ("size", .mk .TypeInt .none "") _ (by simp) (Reaches.self _), rfl⟩,
    (reverseType_error listWithIntField).2.2 "Unrecognized type TypeInt" (by decide)⟩

/-- C5 (amended).  `generateModule` does not validate the set of valid
privileges: on a grant definition whose set of valid privileges is empty it
succeeds whenever `reverseType` succeeds on every schema field not named
`privilege`, and the document it assembles has `locals["privileges"]` equal to
the empty list. -/
theorem generateModule_empty_privileges (name : String) (grant : TerraformGrantResource)
    (hp : grant.validPrivs = [])
    (hf : ∀ f ∈ grant.schema, f.1 ≠ "privilege" → (reverseType f.2).isOk = true) :
    ∃ m, generateModule name grant = .ok m ∧ m.Locals "privileges" = some [] := by
  obtain ⟨m, hm⟩ := (isOk_iff (generateModule name grant)).1 (by
    unfold generateModule
    obtain ⟨vars, hv⟩ :=
      (isOk_iff _).1 ((collectVariables_isOk grant.schema mapEmpty).2 hf)
    rw [hv]; rfl)
  refine ⟨m, hm, ?_⟩
  obtain ⟨_, _, _, hl, _⟩ := generateModule_ok hm
  rw [hl, hp, mapSet_self]; rfl

/-- Witness of C5 (amended): the grant `noPrivilegeGrant`. -/
theorem generateModule_empty_privileges_witness :
    ∃ m, generateModule "database_grant" noPrivilegeGrant = .ok m ∧
      m.Locals "privileges" = some [] :=
  generateModule_empty_privileges "database_grant" noPrivilegeGrant rfl (by decide)

/-- C5 as stated fails: on `noPrivilegeGrant`, whose set of valid privileges is
empty, `generateModule` returns a document and no error. -/
theorem empty_privilege_set_accepted :
    noPrivilegeGrant.validPrivs = [] ∧
      (generateModule "database_grant" noPrivilegeGrant).isOk = true ∧
      (generateModule "database_grant" noPrivilegeGrant).isError = false := by
  decide

/-- C6.  When `generateModule` succeeds, `locals["privileges"]` is a list in
increasing lexicographic order that is a rearrangement of the valid privileges;
for the valid privileges `SELECT`, `INSERT`, `ALL` (in any order) it is
`["ALL", "INSERT", "SELECT"]`. -/
theorem generateModule_privileges (name : String) (grant : TerraformGrantResource)
    (m : ModuleTemplate) (h : generateModule name grant = .ok m) :
    ∃ ps, m.Locals "privileges" = some ps ∧ ps.Sorted strLE ∧ ps.Perm grant.validPrivs ∧
      (grant.validPrivs.Perm ["SELECT", "INSERT", "ALL"] → ps = ["ALL", "INSERT", "SELECT"]) := by
  obtain ⟨_, _, _, hl, _⟩ := generateModule_ok h
  refine ⟨sortStrings grant.validPrivs, by rw [hl, mapSet_self], sortStrings_sorted _,
    sortStrings_perm _, fun hp => ?_⟩
  rw [sortStrings_congr hp]
  decide

/-- Witness of C6: the grant `databaseGrant`, with valid privileges `SELECT`,
`INSERT`, `ALL`. -/
theorem generateModule_privileges_witness :
    ∃ m, generateModule "database_grant" databaseGrant = .ok m ∧
      m.Locals "privileges" = some ["ALL", "INSERT", "SELECT"] :=
  ⟨_, rfl, by
    obtain ⟨ps, hps, _, _, he⟩ :=
      generateModule_privileges "database_grant" databaseGrant _ rfl
    rw [hps, he (List.Perm.refl _)]⟩

/-- C7.  When `generateModule` succeeds, whether or not the schema has a field
named `privilege`, the variable map of the document has no variable named
`privilege`. -/
theorem generateModule_no_privilege_variable (name : String) (grant : TerraformGrantResource)
    (m : ModuleTemplate) (h : generateModule name grant = .ok m) :
    m.Variables "privilege" = none := by
  obtain ⟨vars, hv, hm, _, _⟩ := generateModule_ok h
  rw [hm, mapSet_of_ne _ _ (by decide),
    collectVariables_untouched _ _ _ hv "privilege" (Or.inl rfl)]
  rfl

/-- Witness of C7: the grant `databaseGrant`, whose schema has a field named
`privilege`. -/
theorem generateModule_no_privilege_variable_witness :
    "privilege" ∈ databaseGrant.schema.map Prod.fst ∧
      ∃ m, generateModule "database_grant" databaseGrant = .ok m ∧
        m.Variables "privilege" = none :=
  ⟨by decide, _, rfl,
    generateModule_no_privilege_variable "database_grant" databaseGrant _ rfl⟩

/-- The keys of the variable map when `generateModule` succeeds. -/
theorem generateModule_variable_names {name : String} {grant : TerraformGrantResource}
    {m : ModuleTemplate} (h : generateModule name grant = .ok m) (k : String) :
    (m.Variables k).isSome = true ↔
      (k ∈ grant.schema.map Prod.fst ∧ k ≠ "privilege") ∨ k = "per_privilege_grants" := by
  obtain ⟨vars, hv, hm, _, _⟩ := generateModule_ok h
  rw [hm]
  by_cases hk : k = "per_privilege_grants"
  · subst hk
    simp [perPrivTypeVarName, mapSet_self]
  · rw [mapSet_of_ne _ _ (show k ≠ perPrivTypeVarName from hk)]
    simp only [hk, or_false]
    constructor
    · intro hs
      by_contra hcon
      have hun : k = "privilege" ∨ k ∉ grant.schema.map Prod.fst := by
        by_cases hp : k = "privilege"
        · exact Or.inl hp
        · exact Or.inr (fun hmem => hcon ⟨hmem, hp⟩)
      rw [collectVariables_untouched _ _ _ hv k hun] at hs
      simp [mapEmpty] at hs
    · rintro ⟨hmem, hp⟩
      exact collectVariables_mem _ _ _ hv k hmem hp

/-- C8.  When `generateModule` succeeds, the variable names are exactly the
schema field names other than `privilege`, plus `per_privilege_grants`; and,
the field names being distinct, every schema field other than `privilege` and
`per_privilege_grants` has a variable whose type is what `reverseType` returns
for the field, whose description is the field's and whose default is nil. -/
theorem generateModule_variables (name : String) (grant : TerraformGrantResource)
    (m : ModuleTemplate) (h : generateModule name grant = .ok m) :
    (∀ k, (m.Variables k).isSome = true ↔
        (k ∈ grant.schema.map Prod.fst ∧ k ≠ "privilege") ∨ k = "per_privilege_grants") ∧
      ((grant.schema.map Prod.fst).Nodup →
        ∀ f ∈ grant.schema, f.1 ≠ "privilege" → f.1 ≠ "per_privilege_grants" →
          ∃ t, reverseType f.2 = .ok t ∧
            m.Variables f.1 =
              some { TType := t, Description := f.2.description, Default := .null }) := by
  obtain ⟨vars, hv, hm, _, _⟩ := generateModule_ok h
  refine ⟨generateModule_variable_names h, ?_⟩
  · intro hnd f hf hp hq
    obtain ⟨t, ht, hval⟩ := collectVariables_value _ _ _ hv hnd f hf hp
    exact ⟨t, ht, by rw [hm, mapSet_of_ne _ _ (show f.1 ≠ perPrivTypeVarName from hq), hval]⟩

/-- Witness of C8: the grant `databaseGrant`; its field `with_grant_option`
becomes a variable of type `bool`, and `privilege` is no variable. -/
theorem generateModule_variables_witness :
    ∃ m, generateModule "database_grant" databaseGrant = .ok m ∧
      (m.Variables "privilege").isSome = false ∧
      (m.Variables "per_privilege_grants").isSome = true ∧
      m.Variables "with_grant_option" =
        some { TType := "bool"
               Description := "Allows the recipient to grant the privilege."
               Default := .null } :=
  ⟨_, rfl, by
    have hw := generateModule_variables "database_grant" databaseGrant _ rfl
    refine ⟨?_, (hw.1 "per_privilege_grants").2 (Or.inr rfl), ?_⟩
    · exact Bool.eq_false_iff.2 (fun hs => by
        rcases (hw.1 "privilege").1 hs with h | h
        · exact h.2 rfl
        · exact absurd h (by decide))
    · obtain ⟨t, ht, hval⟩ := hw.2 (by decide)
        ("with_grant_option", .mk .TypeBool .none "Allows the recipient to grant the privilege.")
        (by simp [databaseGrant]) (by decide) (by decide)
      rw [hval]
      have : t = "bool" := by
        have h2 : reverseType (.mk .TypeBool .none
            "Allows the recipient to grant the privilege.") = .ok "bool" := rfl
        rw [h2] at ht
        exact (Outcome.ok.inj ht).symm
      rw [this]
      rfl⟩

/-- C9.  When `generateModule` succeeds, also on a schema that itself declares a
field `per_privilege_grants`, the variable `per_privilege_grants` has the empty
map as default and the type `"map(object({" + join(",", inner) + "}))"`, where
`inner` holds `shares = list(string)` exactly when the schema has a field
`shares` and `roles = list(string)` exactly when it has a field `roles`, shares
before roles; with only `roles` the type is `map(object({roles = list(string)}))`
and with neither it is `map(object({}))`. -/
theorem generateModule_per_privilege_grants (name : String) (grant : TerraformGrantResource)
    (m : ModuleTemplate) (h : generateModule name grant = .ok m) :
    ∃ ty inner,
      m.Variables "per_privilege_grants" =
          some { TType := ty, Description := perPrivDescription, Default := .emptyMap } ∧
        ty = "map(object(\x7b" ++ ",".intercalate inner ++ "\x7d))" ∧
        ("shares = list(string)" ∈ inner ↔ "shares" ∈ grant.schema.map Prod.fst) ∧
        ("roles = list(string)" ∈ inner ↔ "roles" ∈ grant.schema.map Prod.fst) ∧
        inner.Sublist ["shares = list(string)", "roles = list(string)"] ∧
        ("shares" ∉ grant.schema.map Prod.fst → "roles" ∈ grant.schema.map Prod.fst →
          ty = "map(object(\x7broles = list(string)\x7d))") ∧
        ("shares" ∉ grant.schema.map Prod.fst → "roles" ∉ grant.schema.map Prod.fst →
          ty = "map(object(\x7b\x7d))") := by
  obtain ⟨vars, hv, hm, _, _⟩ := generateModule_ok h
  refine ⟨perPrivType grant.schema, perPrivTypeInner grant.schema, ?_, rfl, ?_⟩
  · rw [hm]; exact mapSet_self _ _ _
  · have hs := hasKey_iff grant.schema "shares"
    have hr := hasKey_iff grant.schema "roles"
    unfold perPrivType perPrivTypeInner
    cases h1 : hasKey grant.schema "shares" <;> cases h2 : hasKey grant.schema "roles" <;>
      rw [h1] at hs <;> rw [h2] at hr <;>
      simp only [Bool.false_eq_true, false_iff, true_iff] at hs hr <;>
      simp only [hs, hr, if_true, if_false, not_true_eq_false, not_false_eq_true,
        false_imp_iff, true_imp_iff, iff_true, iff_false, true_and, and_true] <;>
      decide

/-- Witness of C9: the grant `rolesOnlyGrant`, whose schema has `roles` and no
`shares`. -/
theorem generateModule_per_privilege_grants_witness :
    ∃ m, generateModule "schema_grant" rolesOnlyGrant = .ok m ∧
      m.Variables "per_privilege_grants" =
        some { TType := "map(object(\x7broles = list(string)\x7d))"
               Description := perPrivDescription
               Default := .emptyMap } :=
  ⟨_, rfl, by
    obtain ⟨ty, inner, hvar, _, _, _, _, honly, _⟩ :=
      generateModule_per_privilege_grants "schema_grant" rolesOnlyGrant _ rfl
    rw [hvar, honly (by decide) (by decide)]⟩

/-- C10.  The override default expression `generateModule` builds equals
`"{ " + join(", ", for each inner type field, the text before its "=" trimmed,
followed by " = []") + " }"`: it is `{ shares = [], roles = [] }` when the
schema has both fields, `{ roles = [] }` (the single entry `roles = []`) when
it has `roles` and not `shares`, and `{  }` when it has neither. -/
theorem defaultPrivType_spec (schema : List (String × Schema)) :
    defaultPrivType schema = specDefaultExpression (perPrivTypeInner schema) ∧
      ("shares" ∈ schema.map Prod.fst → "roles" ∈ schema.map Prod.fst →
        defaultPrivType schema = "\x7b shares = [], roles = [] \x7d") ∧
      ("shares" ∉ schema.map Prod.fst → "roles" ∈ schema.map Prod.fst →
        defaultPrivTypes schema = ["roles = []"] ∧
          defaultPrivType schema = "\x7b roles = [] \x7d") ∧
      ("shares" ∉ schema.map Prod.fst → "roles" ∉ schema.map Prod.fst →
        defaultPrivType schema = "\x7b  \x7d") := by
  have hs := hasKey_iff schema "shares"
  have hr := hasKey_iff schema "roles"
  unfold defaultPrivType defaultPrivTypes perPrivTypeInner
  cases h1 : hasKey schema "shares" <;> cases h2 : hasKey schema "roles" <;>
    rw [h1] at hs <;> rw [h2] at hr <;>
    simp only [Bool.false_eq_true, false_iff, true_iff] at hs hr <;>
    simp only [hs, hr, if_true, if_false, not_true_eq_false, not_false_eq_true,
      false_imp_iff, true_imp_iff, true_and, and_true] <;>
    decide

/-- Witness of C10: the schemas of `databaseGrant` (both `shares` and `roles`)
and of `rolesOnlyGrant` (only `roles`). -/
theorem defaultPrivType_spec_witness :
    defaultPrivType databaseGrant.schema = "\x7b shares = [], roles = [] \x7d" ∧
      defaultPrivType rolesOnlyGrant.schema = "\x7b roles = [] \x7d" ∧
      defaultPrivType noPrivilegeGrant.schema = "\x7b  \x7d" :=
  ⟨(defaultPrivType_spec databaseGrant.schema).2.1 (by decide) (by decide),
    ((defaultPrivType_spec rolesOnlyGrant.schema).2.2.1 (by decide) (by decide)).2,
    (defaultPrivType_spec noPrivilegeGrant.schema).2.2.2 (by decide) (by decide)⟩

/-! ## `moduleName` -/

theorem replaceAll_append (s t : String) (old new : Char) :
    replaceAll (s ++ t) old new = replaceAll s old new ++ replaceAll t old new := by
  apply String.ext
  simp [replaceAll]

theorem moduleName_eq (name : String) : moduleName name = replaceAll name '_' '-' ++ "-all" := by
  rw [moduleName, replaceAll_append]
  rfl

/-- C17.  For every resource name `n`, `moduleName n` is `n` with every
underscore replaced by a hyphen, followed by `-all`; it contains no underscore
and ends with `-all`. -/
theorem moduleName_spec (n : String) :
    moduleName n = replaceAll n '_' '-' ++ "-all" ∧
      '_' ∉ (moduleName n).toList ∧
      "-all".toList <:+ (moduleName n).toList := by
  refine ⟨moduleName_eq n, ?_, ?_⟩
  · intro h
    simp only [moduleName, replaceAll, String.toList, List.mem_map] at h
    obtain ⟨c, _, hc⟩ := h
    by_cases h' : c = '_'
    · rw [if_pos h'] at hc; exact absurd hc (by decide)
    · rw [if_neg h'] at hc; exact h' hc
  · rw [moduleName_eq]
    exact ⟨(replaceAll n '_' '-').toList, by simp [String.toList]⟩

/-- What the second loop leaves under each key: the attribute of the element
of that name if there is one other than `privilege`, and what was there
before otherwise. -/
theorem fillResourceAll_apply (defaultExpr : String) (fields : List (String × Schema)) :
    ∀ (resourceAll : GoMap String) (k : String),
      fillResourceAll defaultExpr fields resourceAll k =
        if k ∈ fields.map Prod.fst ∧ k ≠ "privilege" then some (attributeFor defaultExpr k)
        else resourceAll k := by
  induction fields with
  | nil => intro r k; simp [fillResourceAll]
  | cons g rest ih =>
    intro r k
    obtain ⟨n, c⟩ := g
    rw [fillResourceAll]
    by_cases hkr : k ∈ rest.map Prod.fst ∧ k ≠ "privilege"
    · have hk : k ∈ ((n, c) :: rest).map Prod.fst ∧ k ≠ "privilege" :=
        ⟨List.mem_cons_of_mem _ hkr.1, hkr.2⟩
      rw [if_pos hk]
      split_ifs <;> rw [ih, if_pos hkr]
    · by_cases hkn : k = n ∧ k ≠ "privilege"
      · obtain ⟨rfl, hp⟩ := hkn
        have hk : k ∈ ((k, c) :: rest).map Prod.fst ∧ k ≠ "privilege" :=
          ⟨List.mem_cons_self _ _, hp⟩
        rw [if_pos hk, if_neg hp]
        by_cases h1 : k = "roles"
        · rw [if_pos h1, ih, if_neg hkr]
          subst h1
          rw [mapSet_self]; rfl
        · rw [if_neg h1]
          by_cases h2 : k = "shares"
          · rw [if_pos h2, ih, if_neg hkr]
            subst h2
            rw [mapSet_self]; rfl
          · rw [if_neg h2, ih, if_neg hkr, mapSet_self]
            simp [attributeFor, h1, h2]
      · have hk : ¬ (k ∈ ((n, c) :: rest).map Prod.fst ∧ k ≠ "privilege") := by
          rintro ⟨hmem, hp⟩
          rcases List.mem_cons.1 hmem with h | h
          · exact hkn ⟨h, hp⟩
          · exact hkr ⟨h, hp⟩
        rw [if_neg hk]
        have hne : n ≠ "privilege" → k ≠ n := by
          intro hn hkn'
          exact hkn ⟨hkn', by rw [hkn']; exact hn⟩
        split_ifs with h0 h1 h2
        · rw [ih, if_neg hkr]
        · rw [ih, if_neg hkr, mapSet_of_ne _ _ (by rw [← h1]; exact hne h0)]
        · rw [ih, if_neg hkr, mapSet_of_ne _ _ (by rw [← h2]; exact hne h0)]
        · rw [ih, if_neg hkr, mapSet_of_ne _ _ (hne h0)]

/-- The resource block of the document when `generateModule` succeeds. -/
theorem generateModule_body {name : String} {grant : TerraformGrantResource}
    {m : ModuleTemplate} (h : generateModule name grant = .ok m) :
    ∃ body, resourceBody m name = some body ∧
      (∀ r, (m.Resources r).isSome = true ↔ r = name) ∧
      (∀ blocks, m.Resources name = some blocks → ∀ l, (blocks l).isSome = true ↔ l = "all") ∧
      ∀ k, body k =
        if k ∈ grant.schema.map Prod.fst ∧ k ≠ "privilege" then
          some (attributeFor (defaultPrivType grant.schema) k)
        else if k = "privilege" then some "$\x7beach.value\x7d"
        else if k = "for_each" then some "$\x7btoset(local.privileges)\x7d"
        else none := by
  obtain ⟨_, _, _, _, hr⟩ := generateModule_ok h
  refine ⟨fillResourceAll (defaultPrivType grant.schema) grant.schema
    (mapSet (mapSet mapEmpty "for_each" "$\x7btoset(local.privileges)\x7d")
      "privilege" "$\x7beach.value\x7d"), ?_, ?_, ?_, ?_⟩
  · rw [resourceBody, hr, mapSet_self]
    simp [mapSet_self]
  · intro r
    rw [hr]
    by_cases hrn : r = name
    · subst hrn; simp [mapSet_self]
    · simp [mapSet_of_ne _ _ hrn, mapEmpty, hrn]
  · intro blocks hb l
    rw [hr, mapSet_self] at hb
    simp only [Option.some.injEq] at hb
    subst hb
    by_cases hl : l = "all"
    · subst hl; simp [mapSet_self]
    · simp [mapSet_of_ne _ _ hl, mapEmpty, hl]
  · intro k
    rw [fillResourceAll_apply]
    by_cases hk : k ∈ grant.schema.map Prod.fst ∧ k ≠ "privilege"
    · rw [if_pos hk, if_pos hk]
    · rw [if_neg hk, if_neg hk]
      by_cases hp : k = "privilege"
      · subst hp; rw [if_pos rfl, mapSet_self]
      · rw [if_neg hp, mapSet_of_ne _ _ hp]
        by_cases hf : k = "for_each"
        · subst hf; rw [if_pos rfl, mapSet_self]
        · rw [if_neg hf, mapSet_of_ne _ _ hf]; rfl

/-- C11 (amended).  When `generateModule` succeeds, the `privilege` attribute of
the resource body is `${each.value}`, whether or not the schema declares a
`privilege` field; and when the schema has no field named `for_each`, the
`for_each` attribute is `${toset(local.privileges)}`. -/
theorem generateModule_for_each (name : String) (grant : TerraformGrantResource)
    (m : ModuleTemplate) (h : generateModule name grant = .ok m) :
    ∃ body, resourceBody m name = some body ∧
      body "privilege" = some "$\x7beach.value\x7d" ∧
      ("for_each" ∉ grant.schema.map Prod.fst →
        body "for_each" = some "$\x7btoset(local.privileges)\x7d") := by
  obtain ⟨body, hb, _, _, hk⟩ := generateModule_body h
  refine ⟨body, hb, ?_, fun hfe => ?_⟩
  · rw [hk, if_neg (fun hc => hc.2 rfl), if_pos rfl]
  · rw [hk, if_neg (fun hc => hfe hc.1), if_neg (by decide), if_pos rfl]

/-- Witness of C11 (amended): the grant `databaseGrant`, which declares
`privilege` and no `for_each`. -/
theorem generateModule_for_each_witness :
    resourceAttribute (generateModule "database_grant" databaseGrant)
        "database_grant" "privilege" = some "$\x7beach.value\x7d" ∧
      resourceAttribute (generateModule "database_grant" databaseGrant)
        "database_grant" "for_each" = some "$\x7btoset(local.privileges)\x7d" := by
  obtain ⟨body, hb, hp, hf⟩ :=
    generateModule_for_each "database_grant" databaseGrant _ rfl
  have hg : generateModule "database_grant" databaseGrant = .ok _ := rfl
  rw [hg]
  simp only [resourceAttribute, hb, Option.some_bind]
  exact ⟨hp, hf (by decide)⟩

/-- C11 as stated fails: on `forEachGrant`, whose schema has a field named
`for_each`, `generateModule` succeeds and the `for_each` attribute of the
resource body is the pass-through reference `${var.for_each}`. -/
theorem for_each_field_overrides_iteration :
    (generateModule "table_grant" forEachGrant).isOk = true ∧
      resourceAttribute (generateModule "table_grant" forEachGrant) "table_grant" "for_each" =
        some "$\x7bvar.for_each\x7d" ∧
      resourceAttribute (generateModule "table_grant" forEachGrant) "table_grant" "for_each" ≠
        some "$\x7btoset(local.privileges)\x7d" := by
  decide

/-- C12.  When `generateModule` succeeds, the document has exactly one resource
block, under the resource name and the single label `all`; its attribute keys
are exactly the schema field names plus `for_each` and `privilege`; and every
schema field other than `privilege`, `roles` and `shares` is passed through as
the reference `"${var." + f + "}"`. -/
theorem generateModule_resource (name : String) (grant : TerraformGrantResource)
    (m : ModuleTemplate) (h : generateModule name grant = .ok m) :
    (∀ r, (m.Resources r).isSome = true ↔ r = name) ∧
      ∃ blocks body, m.Resources name = some blocks ∧
        (∀ l, (blocks l).isSome = true ↔ l = "all") ∧
        blocks "all" = some body ∧
        (∀ k, (body k).isSome = true ↔
          k ∈ grant.schema.map Prod.fst ∨ k = "for_each" ∨ k = "privilege") ∧
        (∀ f ∈ grant.schema.map Prod.fst, f ≠ "privilege" → f ≠ "roles" → f ≠ "shares" →
          body f = some ("$\x7bvar." ++ f ++ "\x7d")) := by
  obtain ⟨body, hb, hres, hlab, hk⟩ := generateModule_body h
  refine ⟨hres, ?_⟩
  cases hbl : m.Resources name with
  | none => rw [resourceBody, hbl] at hb; simp at hb
  | some blocks =>
    rw [resourceBody, hbl] at hb
    simp only [Option.some_bind] at hb
    refine ⟨blocks, body, rfl, hlab blocks hbl, hb, ?_, ?_⟩
    · intro k
      rw [hk]
      by_cases h1 : k ∈ grant.schema.map Prod.fst ∧ k ≠ "privilege"
      · rw [if_pos h1]; simp [h1.1]
      · rw [if_neg h1]
        by_cases hp : k = "privilege"
        · rw [if_pos hp]; simp [hp]
        · rw [if_neg hp]
          have hmem : k ∉ grant.schema.map Prod.fst := fun hm => h1 ⟨hm, hp⟩
          by_cases hf : k = "for_each"
          · rw [if_pos hf]; simp [hf]
          · rw [if_neg hf]; simp [hmem, hp, hf]
    · intro f hf hp hr hs
      rw [hk, if_pos ⟨hf, hp⟩]
      simp [attributeFor, hr, hs]

/-- Witness of C12: the grant `databaseGrant`; its field `database_name` is
passed through as `${var.database_name}`. -/
theorem generateModule_resource_witness :
    resourceAttribute (generateModule "database_grant" databaseGrant)
        "database_grant" "database_name" = some "$\x7bvar.database_name\x7d" := by
  have key : ∀ m, generateModule "database_grant" databaseGrant = .ok m →
      resourceAttribute (.ok m) "database_grant" "database_name" =
        some "$\x7bvar.database_name\x7d" := by
    intro m hm
    obtain ⟨_, blocks, body, hbl, _, hb, _, hpass⟩ :=
      generateModule_resource "database_grant" databaseGrant m hm
    simp only [resourceAttribute, resourceBody, hbl, hb, Option.some_bind]
    exact hpass "database_name" (by decide) (by decide) (by decide) (by decide)
  exact key _ rfl

theorem unionExpression_tokens (f defaultExpr : String) :
    unionExpression f defaultExpr =
      "$\x7bsetunion(" ++ "\n\t\t\t\t" ++ "var." ++ f ++ "," ++ "\n\t\t\t\t" ++
        "lookup(var.per_privilege_grants, each.value, " ++ defaultExpr ++ ")." ++ f ++ "," ++
        "\n\t\t\t\t" ++ ")\x7d" := by
  apply String.ext
  simp [unionExpression, String.data_append]

theorem mem_defaultPrivTypes (schema : List (String × Schema)) (f : String)
    (hf : f = "roles" ∨ f = "shares") (hmem : f ∈ schema.map Prod.fst) :
    (f ++ " = []") ∈ defaultPrivTypes schema := by
  unfold defaultPrivTypes
  rcases hf with rfl | rfl
  · rw [if_pos ((hasKey_iff schema "roles").2 hmem)]
    exact List.mem_append_right _ (List.mem_singleton.2 (by decide))
  · rw [if_pos ((hasKey_iff schema "shares").2 hmem)]
    exact List.mem_append_left _ (List.mem_singleton.2 (by decide))

/-- C13.  For `f` one of `roles` and `shares` present in the schema, the
attribute `f` of the resource body is `${setunion(`, `var.f`, `,`,
`lookup(var.per_privilege_grants, each.value, D).f`, `,`, `)}` with only white
space between these tokens, where `D` is the override default expression of the
module; and the entries of `D` include `f + " = []"`. -/
theorem generateModule_union (name : String) (grant : TerraformGrantResource)
    (m : ModuleTemplate) (h : generateModule name grant = .ok m)
    (f : String) (hf : f = "roles" ∨ f = "shares") (hmem : f ∈ grant.schema.map Prod.fst) :
    ∃ body w₁ w₂ w₃, resourceBody m name = some body ∧
      (∀ c ∈ (w₁ ++ w₂ ++ w₃).toList, c.isWhitespace = true) ∧
      body f =
        some ("$\x7bsetunion(" ++ w₁ ++ "var." ++ f ++ "," ++ w₂ ++
          "lookup(var.per_privilege_grants, each.value, " ++ defaultPrivType grant.schema ++
          ")." ++ f ++ "," ++ w₃ ++ ")\x7d") ∧
      defaultPrivType grant.schema =
        "\x7b " ++ ", ".intercalate (defaultPrivTypes grant.schema) ++ " \x7d" ∧
      (f ++ " = []") ∈ defaultPrivTypes grant.schema := by
  obtain ⟨body, hb, _, _, hk⟩ := generateModule_body h
  refine ⟨body, "\n\t\t\t\t", "\n\t\t\t\t", "\n\t\t\t\t", hb, by decide, ?_, rfl,
    mem_defaultPrivTypes grant.schema f hf hmem⟩
  have hp : f ≠ "privilege" := by
    rcases hf with rfl | rfl <;> decide
  rw [hk, if_pos ⟨hmem, hp⟩, ← unionExpression_tokens]
  rcases hf with rfl | rfl
  · rfl
  · rfl

/-- Witness of C13: the attribute `roles` of the grant `rolesOnlyGrant`, whose
default expression is `{ roles = [] }`. -/
theorem generateModule_union_witness :
    ∃ m, generateModule "schema_grant" rolesOnlyGrant = .ok m ∧
      ∃ body w₁ w₂ w₃, resourceBody m "schema_grant" = some body ∧
        (∀ c ∈ (w₁ ++ w₂ ++ w₃).toList, c.isWhitespace = true) ∧
        body "roles" =
          some ("$\x7bsetunion(" ++ w₁ ++ "var." ++ "roles" ++ "," ++ w₂ ++
            "lookup(var.per_privilege_grants, each.value, " ++ "\x7b roles = [] \x7d" ++
            ")." ++ "roles" ++ "," ++ w₃ ++ ")\x7d") ∧
        "\x7b roles = [] \x7d" =
          "\x7b " ++ ", ".intercalate (defaultPrivTypes rolesOnlyGrant.schema) ++ " \x7d" ∧
        ("roles" ++ " = []") ∈ defaultPrivTypes rolesOnlyGrant.schema :=
  ⟨_, rfl,
    generateModule_union "schema_grant" rolesOnlyGrant _ rfl "roles" (Or.inl rfl) (by decide)⟩

/-! ## Failure of `generateModule` and of `exec` -/

theorem collectVariables_error (fields : List (String × Schema)) :
    ∀ vars msg, collectVariables fields vars = .error msg →
      ∃ f ∈ fields, f.1 ≠ "privilege" ∧ reverseType f.2 = .error msg := by
  induction fields with
  | nil => intro vars msg h; simp [collectVariables] at h
  | cons g rest ih =>
    intro vars msg h
    obtain ⟨n, c⟩ := g
    rw [collectVariables] at h
    by_cases hn : n = "privilege"
    · rw [if_pos hn] at h
      obtain ⟨f, hf, hp, he⟩ := ih _ _ h
      exact ⟨f, List.mem_cons_of_mem _ hf, hp, he⟩
    · rw [if_neg hn] at h
      cases hc : reverseType c with
      | ok t =>
        rw [hc] at h
        obtain ⟨f, hf, hp, he⟩ := ih _ _ h
        exact ⟨f, List.mem_cons_of_mem _ hf, hp, he⟩
      | error err =>
        rw [hc] at h
        simp only [Outcome.error.injEq] at h
        exact ⟨(n, c), List.mem_cons_self _ _, hn, by rw [← h]; exact hc⟩
      | panic => rw [hc] at h; simp at h

theorem collectVariables_panic (fields : List (String × Schema)) :
    ∀ vars, collectVariables fields vars = .panic →
      ∃ f ∈ fields, f.1 ≠ "privilege" ∧ reverseType f.2 = .panic := by
  induction fields with
  | nil => intro vars h; simp [collectVariables] at h
  | cons g rest ih =>
    intro vars h
    obtain ⟨n, c⟩ := g
    rw [collectVariables] at h
    by_cases hn : n = "privilege"
    · rw [if_pos hn] at h
      obtain ⟨f, hf, hp, he⟩ := ih _ h
      exact ⟨f, List.mem_cons_of_mem _ hf, hp, he⟩
    · rw [if_neg hn] at h
      cases hc : reverseType c with
      | ok t =>
        rw [hc] at h
        obtain ⟨f, hf, hp, he⟩ := ih _ h
        exact ⟨f, List.mem_cons_of_mem _ hf, hp, he⟩
      | error err => rw [hc] at h; simp at h
      | panic => exact ⟨(n, c), List.mem_cons_self _ _, hn, hc⟩

/-- The outcome of `generateModule` is of the kind of the outcome of its first
loop, with the same error. -/
theorem generateModule_outcome (name : String) (grant : TerraformGrantResource) :
    (generateModule name grant).isOk = (collectVariables grant.schema mapEmpty).isOk ∧
      (∀ msg, generateModule name grant = .error msg ↔
        collectVariables grant.schema mapEmpty = .error msg) ∧
      (generateModule name grant = .panic ↔ collectVariables grant.schema mapEmpty = .panic) := by
  unfold generateModule
  cases hc : collectVariables grant.schema mapEmpty with
  | ok vars => simp [Outcome.isOk]
  | error err => simp [Outcome.isOk]
  | panic => simp [Outcome.isOk]

theorem generateModule_isOk_iff (name : String) (grant : TerraformGrantResource) :
    (generateModule name grant).isOk = true ↔
      ∀ f ∈ grant.schema, f.1 ≠ "privilege" → (reverseType f.2).isOk = true := by
  rw [(generateModule_outcome name grant).1]
  exact collectVariables_isOk grant.schema mapEmpty

theorem isOk_false_of_isError {α : Type} {o : Outcome α} (h : o.isError = true) :
    o.isOk = false := by
  cases o <;> simp [Outcome.isOk, Outcome.isError] at h ⊢

/-- C18.  `generateModule` fails exactly when `reverseType` fails on some schema
field not named `privilege`, and the error it returns is the error of such a
field; when no such field makes `reverseType` panic, it returns an error
exactly when `reverseType` returns an error on such a field.  The field
`privilege` is never passed to `reverseType`: if every other field reverses,
`generateModule` succeeds whatever the kind of `privilege`. -/
theorem generateModule_error_iff (name : String) (grant : TerraformGrantResource) :
    ((generateModule name grant).isOk = false ↔
        ∃ f ∈ grant.schema, f.1 ≠ "privilege" ∧ (reverseType f.2).isOk = false) ∧
      (∀ msg, generateModule name grant = .error msg →
        ∃ f ∈ grant.schema, f.1 ≠ "privilege" ∧ reverseType f.2 = .error msg) ∧
      ((∀ f ∈ grant.schema, f.1 ≠ "privilege" → reverseType f.2 ≠ .panic) →
        ((generateModule name grant).isError = true ↔
          ∃ f ∈ grant.schema, f.1 ≠ "privilege" ∧ (reverseType f.2).isError = true)) ∧
      ((∀ f ∈ grant.schema, f.1 ≠ "privilege" → (reverseType f.2).isOk = true) →
        (generateModule name grant).isOk = true) := by
  have hiff := generateModule_isOk_iff name grant
  have hout := generateModule_outcome name grant
  have hfalse : (generateModule name grant).isOk = false ↔
      ∃ f ∈ grant.schema, f.1 ≠ "privilege" ∧ (reverseType f.2).isOk = false := by
    rw [← Bool.not_eq_true, hiff]
    push_neg
    simp only [Bool.not_eq_true]
  refine ⟨hfalse, ?_, ?_, hiff.2⟩
  · intro msg h
    exact collectVariables_error _ _ _ ((hout.2.1 msg).1 h)
  · intro hnp
    constructor
    · intro h
      cases hg : generateModule name grant with
      | ok m => rw [hg] at h; simp [Outcome.isError] at h
      | error msg =>
        obtain ⟨f, hf, hp, he⟩ := collectVariables_error _ _ _ ((hout.2.1 msg).1 hg)
        exact ⟨f, hf, hp, by rw [he]; rfl⟩
      | panic =>
        obtain ⟨f, hf, hp, he⟩ := collectVariables_panic _ _ (hout.2.2.1 hg)
        exact absurd he (hnp f hf hp)
    · rintro ⟨f, hf, hp, he⟩
      have hno : (generateModule name grant).isOk = false :=
        hfalse.2 ⟨f, hf, hp, isOk_false_of_isError he⟩
      cases hg : generateModule name grant with
      | ok m => rw [hg] at hno; simp [Outcome.isOk] at hno
      | error msg => rfl
      | panic =>
        obtain ⟨f', hf', hp', he'⟩ := collectVariables_panic _ _ (hout.2.2.1 hg)
        exact absurd he' (hnp f' hf' hp')

/-- Witness of C18: `intFieldGrant` fails on its field `size`, and
`intPrivilegeGrant`, whose only unsupported field is `privilege`, succeeds. -/
theorem generateModule_error_iff_witness :
    (generateModule "table_grant" intFieldGrant).isError = true ∧
      (generateModule "table_grant" intPrivilegeGrant).isOk = true :=
  ⟨((generateModule_error_iff "table_grant" intFieldGrant).2.2.1 (by decide)).2
      ⟨("size", .mk .TypeInt .none "A number."), by simp [intFieldGrant], by decide, by decide⟩,
    (generateModule_error_iff "table_grant" intPrivilegeGrant).2.2.2 (by decide)⟩

/-- A resource on which `generateModule` fails ends the loop of `exec` without
success and without an invocation of `writeModule` for it. -/
theorem execLoop_no_write (os : Os) (c : Collaborators) (n : String)
    (g : TerraformGrantResource) (hbad : (generateModule n g).isOk = false) :
    ∀ (grants : List (String × TerraformGrantResource)) (ciTests : List String)
      (calls : List WriteCall),
      (n, g) ∈ grants → (grants.map Prod.fst).Nodup → (∀ w ∈ calls, w.resource ≠ n) →
        (execLoop os c grants ciTests calls).1.isOk = false ∧
          ∀ w ∈ (execLoop os c grants ciTests calls).2, w.resource ≠ n := by
  intro grants
  induction grants with
  | nil => intro _ _ hmem; simp at hmem
  | cons hd rest ih =>
    intro ciTests calls hmem hnd hcalls
    obtain ⟨n', g'⟩ := hd
    rw [List.map_cons, List.nodup_cons] at hnd
    rw [execLoop]
    rcases List.mem_cons.1 hmem with heq | hrest
    · simp only [Prod.mk.injEq] at heq
      obtain ⟨rfl, rfl⟩ := heq
      cases hg : generateModule n g with
      | ok tf => rw [hg] at hbad; simp [Outcome.isOk] at hbad
      | error err => exact ⟨rfl, hcalls⟩
      | panic => exact ⟨rfl, hcalls⟩
    · have hne : n' ≠ n := by
        intro h
        apply hnd.1
        rw [h]
        exact List.mem_map.2 ⟨(n, g), hrest, rfl⟩
      have hcalls' : ∀ ops, ∀ w ∈ calls ++
          [{ resource := n', name := moduleName n', ops := ops : WriteCall }],
          w.resource ≠ n := by
        intro ops w hw
        rcases List.mem_append.1 hw with hw | hw
        · exact hcalls w hw
        · rw [List.mem_singleton.1 hw]; exact hne
      cases hg : generateModule n' g' with
      | error err => exact ⟨rfl, hcalls⟩
      | panic => exact ⟨rfl, hcalls⟩
      | ok tf =>
        dsimp only
        cases ht : c.generateTest g' with
        | error err => exact ⟨rfl, hcalls⟩
        | panic => exact ⟨rfl, hcalls⟩
        | ok testCode =>
          dsimp only
          cases hw : writeModule os (moduleName n') tf testCode with
          | mk o ops =>
            cases o with
            | ok u => exact ih _ _ hrest hnd.2 (hcalls' ops)
            | error err => exact ⟨rfl, hcalls' ops⟩
            | panic => exact ⟨rfl, hcalls' ops⟩

/-- C16 (amended).  For every resource whose schema contains a field not named
`privilege` with an unrecognized kind, `exec` does not succeed (it returns an
error unless a type assertion panics first) and never invokes `writeModule`
for that resource, so no file and no module directory is written for it. -/
theorem exec_fails_before_write (os : Os) (c : Collaborators)
    (grants : List (String × TerraformGrantResource)) (n : String) (g : TerraformGrantResource)
    (hmem : (n, g) ∈ grants) (hnd : (grants.map Prod.fst).Nodup)
    (hbad : ∃ f ∈ g.schema, f.1 ≠ "privilege" ∧ f.2.type.unsupported = true) :
    (exec os c grants).1.isOk = false ∧
      ((exec os c grants).1 ≠ .panic → (exec os c grants).1.isError = true) ∧
      ∀ w ∈ (exec os c grants).2, w.resource ≠ n := by
  have hgen : (generateModule n g).isOk = false := by
    obtain ⟨f, hf, hp, hu⟩ := hbad
    rw [← Bool.not_eq_true, generateModule_isOk_iff]
    intro hall
    have := hall f hf hp
    obtain ⟨name, t, el, d⟩ := f
    rw [reverseType_unsupported t el d hu] at this
    simp [Outcome.isOk] at this
  obtain ⟨h1, h2⟩ := execLoop_no_write os c n g hgen grants [] [] hmem hnd (by simp)
  have hex : (exec os c grants).1.isOk = false ∧ ∀ w ∈ (exec os c grants).2, w.resource ≠ n := by
    unfold exec
    cases hl : execLoop os c grants [] [] with
    | mk o calls =>
      rw [hl] at h1 h2
      cases o with
      | ok v => simp [Outcome.isOk] at h1
      | error err => exact ⟨rfl, h2⟩
      | panic => exact ⟨rfl, h2⟩
  refine ⟨hex.1, ?_, hex.2⟩
  intro hnp
  cases he : (exec os c grants).1 with
  | ok v => rw [he] at hex; simp [Outcome.isOk] at hex
  | error err => rfl
  | panic => exact absurd he hnp

/-- Witness of C16 (amended): a run over `databaseGrant` and `intFieldGrant`. -/
theorem exec_fails_before_write_witness :
    (exec agreeableOs agreeableCollaborators
        [("database_grant", databaseGrant), ("table_grant", intFieldGrant)]).1.isError = true ∧
      ∀ w ∈ (exec agreeableOs agreeableCollaborators
        [("database_grant", databaseGrant), ("table_grant", intFieldGrant)]).2,
          w.resource ≠ "table_grant" :=
  have h := exec_fails_before_write agreeableOs agreeableCollaborators
    [("database_grant", databaseGrant), ("table_grant", intFieldGrant)]
    "table_grant" intFieldGrant (by simp) (by decide)
    ⟨("size", .mk .TypeInt .none "A number."), by simp [intFieldGrant], by decide, by decide⟩
  ⟨h.2.1 (by decide), h.2.2⟩

/-- C16 as stated fails: the schema of `intPrivilegeGrant` contains a field of
an unrecognized kind, named `privilege`, and the run succeeds and invokes
`writeModule` for the resource. -/
theorem unrecognized_privilege_kind_is_written :
    (∃ f ∈ intPrivilegeGrant.schema, f.2.type.unsupported = true) ∧
      (exec agreeableOs agreeableCollaborators [("table_grant", intPrivilegeGrant)]).1.isOk =
        true ∧
      (exec agreeableOs agreeableCollaborators [("table_grant", intPrivilegeGrant)]).2.map
        (fun w => (w.resource, w.name)) = [("table_grant", "table-grant-all")] := by
  refine ⟨⟨("privilege", .mk .TypeInt .none "The privilege to grant."), ?_, rfl⟩, ?_, ?_⟩
  · simp [intPrivilegeGrant]
  · decide
  · decide

/-! ## References to variables -/

theorem afterVar_mem_dot {l rest : List Char} (h : afterVar l = some rest) : '.' ∈ l := by
  match l, h with
  | c₁ :: c₂ :: c₃ :: c₄ :: tl, h =>
    rw [afterVar] at h
    split_ifs at h with hc
    simp [hc.2.2.2]

theorem scanRefs_no_dot : ∀ (l : List Char) (blocked : Bool), '.' ∉ l → scanRefs blocked l = [] := by
  intro l
  induction l with
  | nil => intro _ _; rfl
  | cons c cs ih =>
    intro blocked h
    rw [scanRefs, ih _ (fun hm => h (List.mem_cons_of_mem _ hm)), List.append_nil]
    cases blocked with
    | true => rfl
    | false =>
      cases ha : afterVar (c :: cs) with
      | none => rfl
      | some rest => exact absurd (afterVar_mem_dot ha) h

theorem takeWhile_append_singleton {p : Char → Bool} :
    ∀ (l : List Char) (x : Char), (∀ c ∈ l, p c = true) → p x = false →
      (l ++ [x]).takeWhile p = l := by
  intro l
  induction l with
  | nil => intro x _ hx; simp [List.takeWhile, hx]
  | cons c cs ih =>
    intro x hl hx
    rw [List.cons_append, List.takeWhile_cons, hl c (List.mem_cons_self _ _)]
    simp only [if_true]
    rw [ih x (fun d hd => hl d (List.mem_cons_of_mem _ hd)) hx]

/-- A pass-through attribute of a field whose name is an identifier refers to
the variable of that name, and to no other. -/
theorem varRefs_passThrough (f : String) (hid : ∀ c ∈ f.toList, isIdentChar c = true) :
    varRefs ("$\x7bvar." ++ f ++ "\x7d") = [f] := by
  have htext : ("$\x7bvar." ++ f ++ "\x7d").toList =
      '$' :: '\x7b' :: 'v' :: 'a' :: 'r' :: '.' :: (f.toList ++ ['\x7d']) := by
    simp [String.toList, String.data_append]
  have hdot : '.' ∉ f.toList ++ ['\x7d'] := by
    intro hm
    rcases List.mem_append.1 hm with hm | hm
    · exact absurd (hid _ hm) (by decide)
    · exact absurd (List.mem_singleton.1 hm) (by decide)
  have h1 : (isIdentChar '$' || '$' == '.') = false := by decide
  have h2 : (isIdentChar '\x7b' || '\x7b' == '.') = false := by decide
  have h3 : (isIdentChar 'v' || 'v' == '.') = true := by decide
  have hname : (f.toList ++ ['\x7d']).takeWhile isIdentChar = f.toList :=
    takeWhile_append_singleton f.toList '\x7d' hid (by decide)
  have ha1 : afterVar ('$' :: '\x7b' :: 'v' :: 'a' :: 'r' :: '.' :: (f.toList ++ ['\x7d'])) =
      none := by
    rw [afterVar, if_neg (by decide)]
  have ha2 : afterVar ('\x7b' :: 'v' :: 'a' :: 'r' :: '.' :: (f.toList ++ ['\x7d'])) = none := by
    rw [afterVar, if_neg (by decide)]
  have ha3 : afterVar ('v' :: 'a' :: 'r' :: '.' :: (f.toList ++ ['\x7d'])) =
      some (f.toList ++ ['\x7d']) := by
    rw [afterVar, if_pos (by decide)]
  have hrest : scanRefs true ('a' :: 'r' :: '.' :: (f.toList ++ ['\x7d'])) = [] := by
    rw [scanRefs, scanRefs, scanRefs, scanRefs_no_dot _ _ hdot]
    rfl
  rw [varRefs, htext, scanRefs, ha1, h1, scanRefs, ha2, h2, scanRefs, ha3, h3, hrest]
  simp only [hname, Bool.false_eq_true, if_false, List.append_nil]
  rfl

theorem varRefs_unionExpression (schema : List (String × Schema)) :
    varRefs (unionExpression "roles" (defaultPrivType schema)) =
        ["roles", "per_privilege_grants"] ∧
      varRefs (unionExpression "shares" (defaultPrivType schema)) =
        ["shares", "per_privilege_grants"] := by
  unfold defaultPrivType defaultPrivTypes
  cases hasKey schema "shares" <;> cases hasKey schema "roles" <;> decide

/-- C19 (amended).  When `generateModule` succeeds on a schema whose field names
consist of identifier characters (letters, digits, `_`, `-`), every `var.x`
that occurs in the text of an attribute of the resource body names a variable
declared in the variable map; and when the schema has a field `roles` or
`shares`, every declared variable is named by a `var.x` that occurs in the text
of an attribute of the resource body. -/
theorem generateModule_closed (name : String) (grant : TerraformGrantResource)
    (m : ModuleTemplate) (h : generateModule name grant = .ok m)
    (hid : ∀ f ∈ grant.schema, ∀ c ∈ f.1.toList, isIdentChar c = true) :
    ∃ body, resourceBody m name = some body ∧
      (∀ k v x, body k = some v → x ∈ varRefs v → (m.Variables x).isSome = true) ∧
      (("roles" ∈ grant.schema.map Prod.fst ∨ "shares" ∈ grant.schema.map Prod.fst) →
        ∀ x, (m.Variables x).isSome = true → ∃ k v, body k = some v ∧ x ∈ varRefs v) := by
  obtain ⟨body, hb, _, _, hk⟩ := generateModule_body h
  have hvars := generateModule_variable_names h
  have hunion := varRefs_unionExpression grant.schema
  have hident : ∀ k ∈ grant.schema.map Prod.fst, ∀ c ∈ k.toList, isIdentChar c = true := by
    intro k hkm
    obtain ⟨f, hf, rfl⟩ := List.mem_map.1 hkm
    exact hid f hf
  have hattr : ∀ k, k ∈ grant.schema.map Prod.fst →
      varRefs (attributeFor (defaultPrivType grant.schema) k) =
        if k = "roles" ∨ k = "shares" then [k, "per_privilege_grants"] else [k] := by
    intro k hkm
    unfold attributeFor
    by_cases h1 : k = "roles"
    · rw [if_pos h1, if_pos (Or.inl h1), hunion.1, h1]
    · rw [if_neg h1]
      by_cases h2 : k = "shares"
      · rw [if_pos h2, if_pos (Or.inr h2), hunion.2, h2]
      · rw [if_neg h2, if_neg (by simp [h1, h2]), varRefs_passThrough k (hident k hkm)]
  refine ⟨body, hb, ?_, ?_⟩
  · intro k v x hv hx
    rw [hk] at hv
    split_ifs at hv with h1 h2 h3
    · rw [← Option.some.inj hv, hattr k h1.1] at hx
      have hxk : x = k ∨ x = "per_privilege_grants" := by
        split_ifs at hx
        · simpa using hx
        · exact Or.inl (List.mem_singleton.1 hx)
      rcases hxk with rfl | rfl
      · exact (hvars x).2 (Or.inl h1)
      · exact (hvars "per_privilege_grants").2 (Or.inr rfl)
    · rw [← Option.some.inj hv, show varRefs "$\x7beach.value\x7d" = [] by decide] at hx
      cases hx
    · rw [← Option.some.inj hv,
        show varRefs "$\x7btoset(local.privileges)\x7d" = [] by decide] at hx
      cases hx
  · intro hrs x hx
    rcases (hvars x).1 hx with hmem | rfl
    · refine ⟨x, attributeFor (defaultPrivType grant.schema) x, by rw [hk, if_pos hmem], ?_⟩
      rw [hattr x hmem.1]
      split_ifs <;> simp
    · rcases hrs with hr | hs
      · refine ⟨"roles", attributeFor (defaultPrivType grant.schema) "roles",
          by rw [hk, if_pos ⟨hr, by decide⟩], ?_⟩
        rw [hattr "roles" hr, if_pos (Or.inl rfl)]
        simp
      · refine ⟨"shares", attributeFor (defaultPrivType grant.schema) "shares",
          by rw [hk, if_pos ⟨hs, by decide⟩], ?_⟩
        rw [hattr "shares" hs, if_pos (Or.inr rfl)]
        simp

/-- Witness of C19 (amended): in the module of `databaseGrant` the variable
`per_privilege_grants` is named by a `var.x` in an attribute of the resource
body. -/
theorem generateModule_closed_witness :
    ∃ m body, generateModule "database_grant" databaseGrant = .ok m ∧
      resourceBody m "database_grant" = some body ∧
      (m.Variables "database_name").isSome = true ∧
      ∃ k v, body k = some v ∧ "per_privilege_grants" ∈ varRefs v := by
  have key : ∀ m, generateModule "database_grant" databaseGrant = .ok m →
      ∃ body, resourceBody m "database_grant" = some body ∧
        (m.Variables "database_name").isSome = true ∧
        ∃ k v, body k = some v ∧ "per_privilege_grants" ∈ varRefs v := by
    intro m hm
    obtain ⟨body, hb, hdecl, hall⟩ :=
      generateModule_closed "database_grant" databaseGrant m hm (by decide)
    obtain ⟨body', hb', _, _, hk⟩ := generateModule_body hm
    rw [hb] at hb'
    cases hb'
    refine ⟨body, hb, ?_, hall (Or.inl (by decide)) "per_privilege_grants"
      ((generateModule_variable_names hm "per_privilege_grants").2 (Or.inr rfl))⟩
    exact hdecl "database_name" "$\x7bvar.database_name\x7d" "database_name"
      (by rw [hk, if_pos (by decide)]; rfl) (by decide)
  obtain ⟨body, h1, h2, h3⟩ := key _ rfl
  exact ⟨_, body, rfl, h1, h2, h3⟩

/-- C19 as stated fails: on `dottedNameGrant`, whose schema has a field named
`a.b`, `generateModule` succeeds, the attribute `a.b` of the resource body is
`${var.a.b}`, whose `var.` reference names the variable `a`, and no variable
`a` is declared. -/
theorem dotted_field_name_refers_to_undeclared_variable :
    (generateModule "table_grant" dottedNameGrant).isOk = true ∧
      resourceAttribute (generateModule "table_grant" dottedNameGrant) "table_grant" "a.b" =
        some "$\x7bvar.a.b\x7d" ∧
      varRefs "$\x7bvar.a.b\x7d" = ["a"] ∧
      variableOf (generateModule "table_grant" dottedNameGrant) "a" = none := by
  refine ⟨by decide, by decide, by decide, ?_⟩
  rfl

/-! ## The meaning of the union expression -/

theorem lookup_map_snd {α β : Type} (g : α → β) (k : String) (l : List (String × α)) :
    (l.map (fun o => (o.1, g o.2))).lookup k = (l.lookup k).map g := by
  induction l with
  | nil => rfl
  | cons hd tl ih =>
    obtain ⟨n, v⟩ := hd
    simp only [List.map_cons, List.lookup]
    cases k == n <;> simp [ih]

theorem template_unionAst_render (f : String) (d : TfExpr) :
    (unionAst f d).template = unionExpression f d.render := by
  apply String.ext
  simp [TfExpr.template, unionAst, TfExpr.render, unionExpression, String.data_append]

theorem render_defaultAst (schema : List (String × Schema)) :
    (defaultAst schema).render = defaultPrivType schema := by
  unfold defaultAst defaultPrivType defaultPrivTypes
  cases hasKey schema "shares" <;> cases hasKey schema "roles" <;> decide

theorem template_unionAst (schema : List (String × Schema)) (f : String) :
    (unionAst f (defaultAst schema)).template = unionExpression f (defaultPrivType schema) := by
  rw [template_unionAst_render, render_defaultAst]

theorem eval_defaultAst (env : String → Option TfValue) (schema : List (String × Schema))
    (f : String) (hf : f = "roles" ∨ f = "shares") (hmem : f ∈ schema.map Prod.fst) :
    ∃ fields, (defaultAst schema).eval env = some (.object fields) ∧
      fields.lookup f = some (.strings []) := by
  have hk := (hasKey_iff schema f).2 hmem
  unfold defaultAst
  rcases hf with rfl | rfl
  · rw [hk]
    cases hasKey schema "shares"
    · exact ⟨[("roles", .strings [])], rfl, rfl⟩
    · exact ⟨[("shares", .strings []), ("roles", .strings [])], rfl, rfl⟩
  · rw [hk]
    cases hasKey schema "roles"
    · exact ⟨[("shares", .strings [])], rfl, rfl⟩
    · exact ⟨[("shares", .strings []), ("roles", .strings [])], rfl, rfl⟩

/-- The value of the union expression of `roles` over a default expression
whose value is an object with `roles = []`. -/
theorem eval_unionAst (d : TfExpr) (roles : List String)
    (overrides : List (String × List (String × List String))) (privilege : String)
    (fields : List (String × TfValue))
    (hd : d.eval (iterationEnv roles overrides privilege) = some (.object fields))
    (hl : fields.lookup "roles" = some (.strings [])) :
    (∀ obj extra, overrides.lookup privilege = some obj → obj.lookup "roles" = some extra →
        (unionAst "roles" d).eval (iterationEnv roles overrides privilege) =
          some (.set (roles.toFinset ∪ extra.toFinset))) ∧
      (overrides.lookup privilege = none →
        (unionAst "roles" d).eval (iterationEnv roles overrides privilege) =
          some (.set roles.toFinset)) := by
  have h2 : iterationEnv roles overrides privilege "var.per_privilege_grants" =
      some (.map (overrides.map (fun o => (o.1, overrideValue o.2)))) := rfl
  have h3 : iterationEnv roles overrides privilege "each.value" = some (.str privilege) := rfl
  have hv : iterationEnv roles overrides privilege ("var." ++ "roles") =
      some (.strings roles) := rfl
  constructor
  · intro obj extra ho he
    have hlk : (overrides.map (fun o => (o.1, overrideValue o.2))).lookup privilege =
        some (overrideValue obj) := by
      rw [lookup_map_snd overrideValue, ho]; rfl
    have hlk2 : (obj.map (fun f => (f.1, TfValue.strings f.2))).lookup "roles" =
        some (.strings extra) := by
      rw [lookup_map_snd TfValue.strings, he]; rfl
    simp only [unionAst, TfExpr.eval, hv, h2, h3, hd, hlk, Option.getD_some]
    simp only [overrideValue, hlk2, TfValue.toSet]
  · intro ho
    have hlk : (overrides.map (fun o => (o.1, overrideValue o.2))).lookup privilege = none := by
      rw [lookup_map_snd overrideValue, ho]; rfl
    simp only [unionAst, TfExpr.eval, hv, h2, h3, hd, hlk, Option.getD_none, hl,
      TfValue.toSet, List.toFinset_nil, Finset.union_empty]

/-- C14.  When `generateModule` succeeds on a schema with a field `roles`, the
attribute `roles` of the resource body is the text of the expression
`setunion(var.roles, lookup(var.per_privilege_grants, each.value, D).roles)`;
under the meaning of `setunion` and of `lookup` with a default, for every
module-level list `G`, override map `M` and privilege `p` its value is the set
`G ∪ M[p].roles` when `p` is a key of `M`, and the set `G` when it is not. -/
theorem union_expression_meaning (name : String) (grant : TerraformGrantResource)
    (m : ModuleTemplate) (h : generateModule name grant = .ok m)
    (hmem : "roles" ∈ grant.schema.map Prod.fst) (G : List String)
    (M : List (String × List (String × List String))) (p : String) :
    ∃ body, resourceBody m name = some body ∧
      body "roles" = some (unionAst "roles" (defaultAst grant.schema)).template ∧
      (∀ obj extra, M.lookup p = some obj → obj.lookup "roles" = some extra →
        (unionAst "roles" (defaultAst grant.schema)).eval (iterationEnv G M p) =
          some (.set (G.toFinset ∪ extra.toFinset))) ∧
      (M.lookup p = none →
        (unionAst "roles" (defaultAst grant.schema)).eval (iterationEnv G M p) =
          some (.set G.toFinset)) := by
  obtain ⟨body, hb, _, _, hk⟩ := generateModule_body h
  obtain ⟨fields, hd, hl⟩ :=
    eval_defaultAst (iterationEnv G M p) grant.schema "roles" (Or.inl rfl) hmem
  obtain ⟨h1, h2⟩ := eval_unionAst (defaultAst grant.schema) G M p fields hd hl
  refine ⟨body, hb, ?_, h1, h2⟩
  rw [hk, if_pos ⟨hmem, by decide⟩, template_unionAst]
  rfl

/-- Witness of C14: with `var.roles = ["r1"]` and
`per_privilege_grants = {"SELECT": {roles: ["r2"]}}` the union expression of
`rolesOnlyGrant` has the value `{"r1", "r2"}` for `SELECT` and `{"r1"}` for
`INSERT`. -/
theorem union_expression_meaning_witness :
    (unionAst "roles" (defaultAst rolesOnlyGrant.schema)).eval
        (iterationEnv ["r1"] [("SELECT", [("roles", ["r2"])])] "SELECT") =
      some (.set {"r1", "r2"}) ∧
    (unionAst "roles" (defaultAst rolesOnlyGrant.schema)).eval
        (iterationEnv ["r1"] [("SELECT", [("roles", ["r2"])])] "INSERT") =
      some (.set {"r1"}) := by
  have key : ∀ m, generateModule "schema_grant" rolesOnlyGrant = .ok m →
      (unionAst "roles" (defaultAst rolesOnlyGrant.schema)).eval
          (iterationEnv ["r1"] [("SELECT", [("roles", ["r2"])])] "SELECT") =
        some (.set (["r1"].toFinset ∪ ["r2"].toFinset)) ∧
      (unionAst "roles" (defaultAst rolesOnlyGrant.schema)).eval
          (iterationEnv ["r1"] [("SELECT", [("roles", ["r2"])])] "INSERT") =
        some (.set ["r1"].toFinset) := by
    intro m hm
    obtain ⟨_, _, _, hsel, _⟩ := union_expression_meaning "schema_grant" rolesOnlyGrant m hm
      (by decide) ["r1"] [("SELECT", [("roles", ["r2"])])] "SELECT"
    obtain ⟨_, _, _, _, hins⟩ := union_expression_meaning "schema_grant" rolesOnlyGrant m hm
      (by decide) ["r1"] [("SELECT", [("roles", ["r2"])])] "INSERT"
    exact ⟨hsel [("roles", ["r2"])] ["r2"] (by decide) (by decide), hins (by decide)⟩
  obtain ⟨h1, h2⟩ := key _ rfl
  have e1 : (["r1"].toFinset ∪ ["r2"].toFinset : Finset String) = {"r1", "r2"} := by decide
  have e2 : (["r1"].toFinset : Finset String) = {"r1"} := by decide
  rw [h1, h2, e1, e2]
  exact ⟨rfl, rfl⟩

/-! ## Determinism -/

theorem sameReverse_refl (s : Schema) : SameReverse s s :=
  ⟨rfl, fun _ => Iff.rfl⟩

theorem sameReverse_trans {a b c : Schema} (h₁ : SameReverse a b) (h₂ : SameReverse b c) :
    SameReverse a c :=
  ⟨h₁.1.trans h₂.1, fun t => (h₁.2 t).trans (h₂.2 t)⟩

theorem sameEntry_refl (f : String × Schema) : SameEntry f f :=
  ⟨rfl, sameReverse_refl _⟩

theorem sameEntry_trans {a b c : String × Schema} (h₁ : SameEntry a b) (h₂ : SameEntry b c) :
    SameEntry a c :=
  ⟨h₁.1.trans h₂.1, sameReverse_trans h₁.2 h₂.2⟩

theorem sameEntry_isOk {f f' : String × Schema} (h : SameEntry f f') :
    (reverseType f.2).isOk = true ↔ (reverseType f'.2).isOk = true := by
  rw [isOk_iff, isOk_iff]
  exact ⟨fun ⟨t, ht⟩ => ⟨t, (h.2.2 t).1 ht⟩, fun ⟨t, ht⟩ => ⟨t, (h.2.2 t).2 ht⟩⟩

theorem sameEntry_innerElement {f f' : String × Schema} (h : SameEntry f f')
    (hok : (reverseType f.2).isOk = true) : innerElement f = innerElement f' := by
  obtain ⟨t, ht⟩ := (isOk_iff _).1 hok
  have ht' := (h.2.2 t).1 ht
  unfold GrantAll.innerElement
  rw [ht, ht', h.1]

theorem forall₂_sameEntry_trans :
    ∀ {a b c : List (String × Schema)}, List.Forall₂ SameEntry a b →
      List.Forall₂ SameEntry b c → List.Forall₂ SameEntry a c := by
  intro a b c h₁
  induction h₁ generalizing c with
  | nil => intro h₂; cases h₂; exact List.Forall₂.nil
  | cons hab _ ih =>
    intro h₂
    cases h₂ with
    | cons hbc htl => exact List.Forall₂.cons (sameEntry_trans hab hbc) (ih htl)

theorem rearranged_refl (fields : List (String × Schema)) : Rearranged fields fields :=
  ⟨fields, List.Perm.refl _, List.forall₂_same.2 (fun f _ => sameEntry_refl f)⟩

theorem rearranged_trans {a b c : List (String × Schema)} (h₁ : Rearranged a b)
    (h₂ : Rearranged b c) : Rearranged a c := by
  obtain ⟨l₁, hp₁, hf₁⟩ := h₁
  obtain ⟨l₂, hp₂, hf₂⟩ := h₂
  obtain ⟨x, hpx, hfx⟩ :=
    (congrFun (congrFun List.forall₂_comp_perm_eq_perm_comp_forall₂ l₁) l₂).mp ⟨b, hf₁, hp₂⟩
  exact ⟨x, hp₁.trans hpx, forall₂_sameEntry_trans hfx hf₂⟩

theorem forall₂_sameEntry_names {l l' : List (String × Schema)}
    (h : List.Forall₂ SameEntry l l') : l.map Prod.fst = l'.map Prod.fst := by
  induction h with
  | nil => rfl
  | cons hab _ ih => rw [List.map_cons, List.map_cons, hab.1, ih]

theorem forall₂_sameEntry_entries {l l' : List (String × Schema)}
    (h : List.Forall₂ SameEntry l l') (hok : ∀ f ∈ l, (reverseType f.2).isOk = true) :
    l.map innerElement = l'.map innerElement := by
  induction h with
  | nil => rfl
  | cons hab _ ih =>
    rw [List.map_cons, List.map_cons, sameEntry_innerElement hab (hok _ (List.mem_cons_self _ _)),
      ih (fun f hf => hok f (List.mem_cons_of_mem _ hf))]

theorem forall₂_sameEntry_left {l l' : List (String × Schema)}
    (h : List.Forall₂ SameEntry l l') : ∀ f ∈ l, ∃ f' ∈ l', SameEntry f f' := by
  induction h with
  | nil => intro f hf; cases hf
  | cons hab _ ih =>
    intro f hf
    rcases List.mem_cons.1 hf with rfl | hf
    · exact ⟨_, List.mem_cons_self _ _, hab⟩
    · obtain ⟨f', hf', hs⟩ := ih f hf
      exact ⟨f', List.mem_cons_of_mem _ hf', hs⟩

theorem forall₂_sameEntry_right {l l' : List (String × Schema)}
    (h : List.Forall₂ SameEntry l l') : ∀ f' ∈ l', ∃ f ∈ l, SameEntry f f' := by
  induction h with
  | nil => intro f hf; cases hf
  | cons hab _ ih =>
    intro f' hf'
    rcases List.mem_cons.1 hf' with rfl | hf'
    · exact ⟨_, List.mem_cons_self _ _, hab⟩
    · obtain ⟨f, hf, hs⟩ := ih f' hf'
      exact ⟨f, List.mem_cons_of_mem _ hf, hs⟩

theorem rearranged_names {a b : List (String × Schema)} (h : Rearranged a b) :
    (a.map Prod.fst).Perm (b.map Prod.fst) := by
  obtain ⟨l, hp, hf⟩ := h
  rw [← forall₂_sameEntry_names hf]
  exact hp.map _

theorem rearranged_left {a b : List (String × Schema)} (h : Rearranged a b) :
    ∀ f ∈ a, ∃ f' ∈ b, SameEntry f f' := by
  obtain ⟨l, hp, hf⟩ := h
  intro f hfa
  exact forall₂_sameEntry_left hf f (hp.mem_iff.1 hfa)

theorem rearranged_right {a b : List (String × Schema)} (h : Rearranged a b) :
    ∀ f' ∈ b, ∃ f ∈ a, SameEntry f f' := by
  obtain ⟨l, hp, hf⟩ := h
  intro f' hfb
  obtain ⟨f, hfl, hs⟩ := forall₂_sameEntry_right hf f' hfb
  exact ⟨f, hp.mem_iff.2 hfl, hs⟩

theorem rearranged_entries {a b : List (String × Schema)} (h : Rearranged a b)
    (hok : ∀ f ∈ a, (reverseType f.2).isOk = true) :
    (a.map innerElement).Perm (b.map innerElement) := by
  obtain ⟨l, hp, hf⟩ := h
  rw [← forall₂_sameEntry_entries hf (fun f hfl => hok f (hp.mem_iff.2 hfl))]
  exact hp.map _



theorem sameReverse_set {e e' : Schema} (d : String) (h : SameReverse e e') :
    SameReverse (.mk .TypeSet (.schema e) d) (.mk .TypeSet (.schema e') d) := by
  refine ⟨rfl, fun t => ?_⟩
  rw [reverseType_set, reverseType_set]
  cases he : reverseType e with
  | ok i => rw [(h.2 i).1 he]
  | error err =>
    cases he' : reverseType e' with
    | ok i' => rw [(h.2 i').2 he'] at he; cases he
    | error err' => simp
    | panic => simp
  | panic =>
    cases he' : reverseType e' with
    | ok i' => rw [(h.2 i').2 he'] at he; cases he
    | error err' => simp
    | panic => simp

theorem rearranged_list_ok {fields fields' : List (String × Schema)} (d : String)
    (h : Rearranged fields fields') (t : String)
    (ht : reverseType (.mk .TypeList (.resource fields) d) = .ok t) :
    reverseType (.mk .TypeList (.resource fields') d) = .ok t := by
  have hok : ∀ f ∈ fields, (reverseType f.2).isOk = true :=
    reverseType_list_isOk (by rw [ht]; rfl)
  have hok' : ∀ f' ∈ fields', (reverseType f'.2).isOk = true := by
    intro f' hf'
    obtain ⟨f, hf, hs⟩ := rearranged_right h f' hf'
    exact (sameEntry_isOk hs).1 (hok f hf)
  rw [reverseType_list_eq_sort fields d hok] at ht
  rw [reverseType_list_eq_sort fields' d hok', ← sortStrings_congr (rearranged_entries h hok)]
  exact ht

theorem rearranged_list_ok_symm {fields fields' : List (String × Schema)} (d : String)
    (h : Rearranged fields fields') (t : String)
    (ht : reverseType (.mk .TypeList (.resource fields') d) = .ok t) :
    reverseType (.mk .TypeList (.resource fields) d) = .ok t := by
  have hok' : ∀ f ∈ fields', (reverseType f.2).isOk = true :=
    reverseType_list_isOk (by rw [ht]; rfl)
  have hok : ∀ f ∈ fields, (reverseType f.2).isOk = true := by
    intro f hf
    obtain ⟨f', hf', hs⟩ := rearranged_left h f hf
    exact (sameEntry_isOk hs).2 (hok' f' hf')
  rw [reverseType_list_eq_sort fields' d hok'] at ht
  rw [reverseType_list_eq_sort fields d hok, sortStrings_congr (rearranged_entries h hok)]
  exact ht

theorem sameReverse_list {fields fields' : List (String × Schema)} (d : String)
    (h : Rearranged fields fields') :
    SameReverse (.mk .TypeList (.resource fields) d) (.mk .TypeList (.resource fields') d) :=
  ⟨rfl, fun t => ⟨rearranged_list_ok d h t, rearranged_list_ok_symm d h t⟩⟩

/-- Visiting the maps of a schema in another order rearranges its entries and
leaves what `reverseType` returns on success unchanged. -/
theorem sameFields_rearranged {fields fields' : List (String × Schema)}
    (h : SameFields fields fields') : Rearranged fields fields' := by
  refine SameFields.rec (motive_1 := fun s s' _ => SameReverse s s')
    (motive_2 := fun a b _ => Rearranged a b) ?_ ?_ ?_ ?_ ?_ ?_ ?_ h
  · intro s; exact sameReverse_refl s
  · intro e e' d _ ih; exact sameReverse_set d ih
  · intro a b d _ ih; exact sameReverse_list d ih
  · exact rearranged_refl []
  · intro name s s' a b _ _ ihs ihf
    obtain ⟨l, hp, hf⟩ := ihf
    exact ⟨(name, s) :: l, hp.cons _, List.Forall₂.cons ⟨rfl, ihs⟩ hf⟩
  · intro f g a
    exact ⟨g :: f :: a, List.Perm.swap _ _ _, List.forall₂_same.2 (fun x _ => sameEntry_refl x)⟩
  · intro a b c _ _ ih₁ ih₂
    exact rearranged_trans ih₁ ih₂

theorem hasKey_congr {fields fields' : List (String × Schema)}
    (h : (fields.map Prod.fst).Perm (fields'.map Prod.fst)) (k : String) :
    hasKey fields k = hasKey fields' k := by
  rw [Bool.eq_iff_iff, hasKey_iff, hasKey_iff]
  exact h.mem_iff

theorem fillResourceAll_congr {fields fields' : List (String × Schema)}
    (h : (fields.map Prod.fst).Perm (fields'.map Prod.fst)) (d : String) (r : GoMap String) :
    fillResourceAll d fields r = fillResourceAll d fields' r := by
  funext k
  rw [fillResourceAll_apply, fillResourceAll_apply]
  by_cases hk : k ∈ fields.map Prod.fst ∧ k ≠ "privilege"
  · rw [if_pos hk, if_pos ⟨h.mem_iff.1 hk.1, hk.2⟩]
  · rw [if_neg hk, if_neg (fun hk' => hk ⟨h.mem_iff.2 hk'.1, hk'.2⟩)]

/-- The variables collected from a rearranged schema with distinct names are
the same. -/
theorem collectVariables_rearranged {fields fields' : List (String × Schema)}
    (h : Rearranged fields fields') (hnd : (fields.map Prod.fst).Nodup)
    {vars : GoMap Variable} (hv : collectVariables fields mapEmpty = .ok vars) :
    collectVariables fields' mapEmpty = .ok vars := by
  have hnd' : (fields'.map Prod.fst).Nodup := (rearranged_names h).nodup_iff.1 hnd
  have hok : ∀ f ∈ fields, f.1 ≠ "privilege" → (reverseType f.2).isOk = true :=
    (collectVariables_isOk fields mapEmpty).1 (by rw [hv]; rfl)
  have hok' : ∀ f' ∈ fields', f'.1 ≠ "privilege" → (reverseType f'.2).isOk = true := by
    intro f' hf' hp
    obtain ⟨f, hf, hs⟩ := rearranged_right h f' hf'
    exact (sameEntry_isOk hs).1 (hok f hf (by rw [hs.1]; exact hp))
  obtain ⟨vars', hv'⟩ := (isOk_iff _).1 ((collectVariables_isOk fields' mapEmpty).2 hok')
  rw [hv']
  congr 1
  funext k
  by_cases hk : k = "privilege" ∨ k ∉ fields.map Prod.fst
  · have hk' : k = "privilege" ∨ k ∉ fields'.map Prod.fst := by
      rcases hk with hk | hk
      · exact Or.inl hk
      · exact Or.inr (fun hm => hk ((rearranged_names h).mem_iff.2 hm))
    rw [collectVariables_untouched _ _ _ hv k hk, collectVariables_untouched _ _ _ hv' k hk']
  · push_neg at hk
    obtain ⟨hp, hmem⟩ := hk
    obtain ⟨f, hf, rfl⟩ := List.mem_map.1 hmem
    obtain ⟨t, ht, hval⟩ := collectVariables_value _ _ _ hv hnd f hf hp
    obtain ⟨f', hf', hs⟩ := rearranged_left h f hf
    obtain ⟨t', ht', hval'⟩ :=
      collectVariables_value _ _ _ hv' hnd' f' hf' (by rw [← hs.1]; exact hp)
    have htt : t' = t := by
      have := (hs.2.2 t).1 ht
      rw [this] at ht'
      exact (Outcome.ok.inj ht').symm
    rw [hval, hs.1, hval', htt, hs.2.1]

/-- C15.  Generation does not depend on the order in which unordered inputs are
visited: for a grant definition with distinct field names, if `generateModule`
yields a module document, then with the schema map visited in any other order
at every nesting level and the valid privileges listed in any other order it
yields the same document (the same variables, locals and resource body, hence
the same serialization); and the resource body is the same whatever order the
second loop visits the schema in. -/
theorem generateModule_deterministic (name : String) (grant grant' : TerraformGrantResource)
    (hs : SameFields grant.schema grant'.schema)
    (hp : grant.validPrivs.Perm grant'.validPrivs)
    (hnd : (grant.schema.map Prod.fst).Nodup)
    (m : ModuleTemplate) (h : generateModule name grant = .ok m) :
    generateModule name grant' = .ok m ∧
      ∀ (second : List (String × Schema)) (d : String) (r : GoMap String),
        (second.map Prod.fst).Perm (grant.schema.map Prod.fst) →
          fillResourceAll d second r = fillResourceAll d grant.schema r := by
  refine ⟨?_, fun second d r hperm => fillResourceAll_congr hperm d r⟩
  have hr := sameFields_rearranged hs
  have hnames := rearranged_names hr
  obtain ⟨vars, hv, _⟩ := generateModule_ok h
  have hv' := collectVariables_rearranged hr hnd hv
  have e1 : perPrivType grant'.schema = perPrivType grant.schema := by
    unfold perPrivType perPrivTypeInner
    rw [hasKey_congr hnames "shares", hasKey_congr hnames "roles"]
  have e2 : defaultPrivType grant'.schema = defaultPrivType grant.schema := by
    unfold defaultPrivType defaultPrivTypes
    rw [hasKey_congr hnames "shares", hasKey_congr hnames "roles"]
  have e3 : ∀ d r, fillResourceAll d grant'.schema r = fillResourceAll d grant.schema r :=
    fun d r => (fillResourceAll_congr hnames d r).symm
  have e4 : sortStrings grant'.validPrivs = sortStrings grant.validPrivs :=
    (sortStrings_congr hp).symm
  unfold generateModule at h ⊢
  rw [hv] at h
  rw [hv', e1, e2, e3, e4]
  exact h

theorem nestedGrant_sameFields : SameFields nestedGrant.schema nestedGrantReordered.schema := by
  have h1 : SameFields nestedGrant.schema
      [("privilege", .mk .TypeString .none "The privilege to grant."),
        ("roles", .mk .TypeSet (.schema (.mk .TypeString .none ""))
          "Grants privilege to these roles."),
        ("columns", .mk .TypeList
          (.resource [("masked", .mk .TypeBool .none ""), ("name", .mk .TypeString .none "")])
          "The columns.")] :=
    SameFields.cons _ _ _ _ _ (SameSchema.refl _)
      (SameFields.cons _ _ _ _ _ (SameSchema.refl _)
        (SameFields.cons _ _ _ _ _ (SameSchema.list _ _ _ (SameFields.swap _ _ []))
          SameFields.nil))
  have h2 : SameFields
      [("privilege", .mk .TypeString .none "The privilege to grant."),
        ("roles", .mk .TypeSet (.schema (.mk .TypeString .none ""))
          "Grants privilege to these roles."),
        ("columns", .mk .TypeList
          (.resource [("masked", .mk .TypeBool .none ""), ("name", .mk .TypeString .none "")])
          "The columns.")]
      [("privilege", .mk .TypeString .none "The privilege to grant."),
        ("columns", .mk .TypeList
          (.resource [("masked", .mk .TypeBool .none ""), ("name", .mk .TypeString .none "")])
          "The columns."),
        ("roles", .mk .TypeSet (.schema (.mk .TypeString .none ""))
          "Grants privilege to these roles.")] :=
    SameFields.cons _ _ _ _ _ (SameSchema.refl _) (SameFields.swap _ _ [])
  exact SameFields.trans _ _ _ h1 (SameFields.trans _ _ _ h2 (SameFields.swap _ _ _))

/-- Witness of C15: `nestedGrant` and `nestedGrantReordered` yield the same
document. -/
theorem generateModule_deterministic_witness :
    ∃ m, generateModule "table_grant" nestedGrant = .ok m ∧
      generateModule "table_grant" nestedGrantReordered = .ok m :=
  ⟨_, rfl,
    (generateModule_deterministic "table_grant" nestedGrant nestedGrantReordered
      nestedGrant_sameFields (List.Perm.swap _ _ _) (by decide) _ rfl).1⟩

end GrantAll
